import Mathlib

/-!
Verification development for the Document-Summarizer repository.

The Python sources `src/backend/app.py` and `src/app_updated.py` are shallowly
embedded here.  Python strings are modelled as `List Char` (one entry per
unicode code point, which matches Python's `len` and indexing), Python `int`
as `Int`, regular-expression operations as explicit recursive scanners over
the character list, and the black-box text-generation model as an arbitrary
function returning `Except` (error description or generated text).
-/

set_option maxRecDepth 4096

namespace DocSummarizer

/-- Python strings are modelled as lists of characters. -/
abbrev Str : Type := List Char

/-- Shorthand turning a Lean string literal into the list-of-chars model. -/
def str (s : String) : Str := s.data

/-- ASCII whitespace as recognised by Python's `\s` and by `str.strip()`. -/
def isPySpace (c : Char) : Bool :=
  c = ' ' || c = '\t' || c = '\n' || c = '\r' || c = '\x0b' || c = '\x0c'

/-- Python `str.strip()`: remove leading and trailing whitespace. -/
def pyStrip (s : Str) : Str :=
  ((s.dropWhile isPySpace).reverse.dropWhile isPySpace).reverse

/-- Sentence-terminal characters, the class `[.!?]` of the chunker regex. -/
def isTerm (c : Char) : Bool := c = '.' || c = '!' || c = '?'

mutual

/-- Worker for `re.split(r'(?<=[.!?])\s+', text)` while inside a sentence.
`racc` holds the characters of the current sentence in reverse.  A split point
occurs when the previously read character (head of `racc`) is terminal
punctuation and the current character is whitespace; the whole whitespace run
is then consumed by `splitSentencesSkip`. -/
def splitSentencesAux (racc : Str) : Str → List Str
  | [] => [racc.reverse]
  | c :: rest =>
    if (match racc with | p :: _ => isTerm p | [] => false) && isPySpace c then
      racc.reverse :: splitSentencesSkip rest
    else
      splitSentencesAux (c :: racc) rest

/-- Worker for the sentence splitter between the matched whitespace run and
the start of the next sentence. -/
def splitSentencesSkip : Str → List Str
  | [] => [[]]
  | c :: rest =>
    if isPySpace c then splitSentencesSkip rest else splitSentencesAux [c] rest

end

/-- `re.split(r'(?<=[.!?])\s+', text)` from `chunk_text` in src/backend/app.py. -/
def splitSentences (text : Str) : List Str := splitSentencesAux [] text

/-- One iteration of the chunk-accumulation loop of `chunk_text`
(src/backend/app.py, lines 110-116).  The state is the pair
(chunks emitted so far, current buffer). -/
def chunkStep (maxTokens : Int) (st : List Str × Str) (sentence : Str) :
    List Str × Str :=
  if (st.2.length : Int) + (sentence.length : Int) ≤ maxTokens then
    (st.1, st.2 ++ sentence ++ [' '])
  else
    (if st.2 = [] then st.1 else st.1 ++ [pyStrip st.2], sentence ++ [' '])

/-- The flush after the loop (`if current_chunk: chunks.append(...)`),
shared verbatim by both chunker variants. -/
def finishChunks (st : List Str × Str) : List Str :=
  if st.2 = [] then st.1 else st.1 ++ [pyStrip st.2]

/-- `chunk_text(text, max_tokens)` from src/backend/app.py (lines 102-121). -/
def chunk_text (text : Str) (maxTokens : Int) : List Str :=
  finishChunks ((splitSentences text).foldl (chunkStep maxTokens) ([], []))

mutual

/-- Worker for Python `text.split(". ")` (src/app_updated.py, line 29) while
no separator is pending; `racc` is the current piece reversed. -/
def splitDotSpaceAux (racc : Str) : Str → List Str
  | [] => [racc.reverse]
  | c :: rest =>
    if c = '.' then splitDotSpaceDot racc rest
    else splitDotSpaceAux (c :: racc) rest

/-- Worker for `text.split(". ")` just after reading a `'.'` that may start
the two-character separator. -/
def splitDotSpaceDot (racc : Str) : Str → List Str
  | [] => [('.' :: racc).reverse]
  | c :: rest =>
    if c = ' ' then racc.reverse :: splitDotSpaceAux [] rest
    else if c = '.' then splitDotSpaceDot ('.' :: racc) rest
    else splitDotSpaceAux (c :: '.' :: racc) rest

end

/-- One iteration of the chunk loop of `chunk_text` in src/app_updated.py
(lines 33-38): no emptiness guard before emitting a chunk, and the separator
`". "` is appended to every accumulated sentence. -/
def chunkStepUpd (maxTokens : Int) (st : List Str × Str) (sentence : Str) :
    List Str × Str :=
  if (st.2.length : Int) + (sentence.length : Int) ≤ maxTokens then
    (st.1, st.2 ++ sentence ++ str ". ")
  else
    (st.1 ++ [pyStrip st.2], sentence ++ str ". ")

/-- `chunk_text(text, max_tokens)` from src/app_updated.py (lines 25-41). -/
def chunk_text_updated (text : Str) (maxTokens : Int) : List Str :=
  finishChunks ((splitDotSpaceAux [] text).foldl (chunkStepUpd maxTokens) ([], []))


/-- The exact string content of the running buffer when the sentences of `g`
have been accumulated: every sentence followed by the single separating
space appended by the loop. -/
def renderBuf (g : List Str) : Str := (g.map (fun s => s ++ [' '])).flatten


/-- `get_prompt_prefix(style)` from src/backend/app.py (lines 123-135): a
five-entry table consulted with `styles.get(style, style)`, so an unknown
style string is returned unchanged. -/
def getPromptPrefix (style : Str) : Str :=
  if style = str "Concise" then
    str "Provide a concise and brief summary of the following text: "
  else if style = str "Detailed" then
    str "Provide a comprehensive and detailed summary of the following text, including key points and main ideas: "
  else if style = str "Bullet Points" then
    str "Summarize the following text as a list of bullet points covering the main ideas: "
  else if style = str "Academic" then
    str "Create an academic summary of the following text, highlighting methodology, findings, and conclusions: "
  else if style = str "ELI5" then
    str "Explain the following text as if explaining to a 5-year old in simple terms: "
  else style

/-- The five style names of the `styles` table. -/
def knownStyleNames : List Str :=
  [str "Concise", str "Detailed", str "Bullet Points", str "Academic", str "ELI5"]

/-- The sentinel recorded when generation fails for a chunk
(src/backend/app.py, line 163). -/
def failureMessage (e : Str) : Str :=
  str "Summary generation failed for this section: " ++ e

/-- The per-chunk loop of `summarize_long_text` (src/backend/app.py, lines
145-163): each chunk is prefixed and handed to the model; on success the
generated text is appended, on failure the sentinel message embedding the
error description is appended, and the loop continues. -/
def summarizeChunks (gen : Str → Int → Int → Except Str Str) (pfx : Str)
    (minLength maxLength : Int) : List Str → List Str
  | [] => []
  | chunk :: rest =>
    (match gen (pfx ++ chunk) minLength maxLength with
      | .ok r => r
      | .error e => failureMessage e)
      :: summarizeChunks gen pfx minLength maxLength rest

/-- `summarize_long_text(text, model, style, max_tokens, min_length,
max_length)` from src/backend/app.py (lines 137-165), with the black-box
model call abstracted as `gen` (prompt, min_length, max_length). -/
def summarize_long_text (text : Str) (gen : Str → Int → Int → Except Str Str)
    (style : Str) (maxTokens minLength maxLength : Int) : List Str :=
  summarizeChunks gen (getPromptPrefix style) minLength maxLength
    (chunk_text text maxTokens)

/-- A concrete generation function that fails exactly on the prompt built
from the second chunk of the witness text. -/
def witnessGen : Str → Int → Int → Except Str Str := fun p _ _ =>
  if p = getPromptPrefix (str "Concise") ++ str "Cc." then .error (str "boom")
  else .ok (str "OK")


mutual

/-- Worker for `re.findall(r'•\s*(.*?)(?=•|\Z)', part, re.DOTALL)` while
scanning for the next bullet marker; text before the first marker is
discarded. -/
def bulletScan : Str → List Str
  | [] => []
  | c :: rest => if c = '•' then bulletWs rest else bulletScan rest

/-- After a bullet marker: the greedy `\s*` consumes the whitespace run, then
the lazy capture stops right before the next marker or at the end. -/
def bulletWs : Str → List Str
  | [] => [[]]
  | c :: rest =>
    if c = '•' then [] :: bulletWs rest
    else if isPySpace c then bulletWs rest
    else bulletCap [c] rest

/-- Capturing a bullet segment up to the next marker or the end of input. -/
def bulletCap (racc : Str) : Str → List Str
  | [] => [racc.reverse]
  | c :: rest =>
    if c = '•' then racc.reverse :: bulletWs rest else bulletCap (c :: racc) rest

end

/-- Candidates contributed by one summary part in the bullet branch of
`get_combined_summary` (src/backend/app.py, lines 173-180): the extracted
bullet segments or, when the part has no bullet marker, its non-empty
stripped sentences (same boundary rule as the chunker). -/
def partCandidates (part : Str) : List Str :=
  let bullets := bulletScan part
  if bullets = [] then
    ((splitSentences part).map pyStrip).filter (fun s => decide (s ≠ []))
  else bullets

/-- The `combined` list after the `for part in summaries:
combined.extend(bullets)` loop (line 180). -/
def collectBullets (summaries : List Str) : List Str :=
  (summaries.map partCandidates).flatten

/-- The deduplication loop of lines 183-189: `seen` models the Python set of
already-emitted cleaned strings; each surviving candidate is rendered as one
bulleted line `"• " + cleaned`. -/
def dedupBullets (seen : List Str) : List Str → List Str
  | [] => []
  | b :: rest =>
    let cleaned := pyStrip b
    if cleaned ≠ [] ∧ cleaned ∉ seen then
      (str "• " ++ cleaned) :: dedupBullets (cleaned :: seen) rest
    else dedupBullets seen rest

/-- `get_combined_summary(summaries, style)` from src/backend/app.py
(lines 167-194). -/
def get_combined_summary (summaries : List Str) (style : Str) : Str :=
  if style = str "Bullet Points" then
    List.intercalate (str "\n") (dedupBullets [] (collectBullets summaries))
  else
    List.intercalate (str "\n\n") summaries


/-- Python `str.lower()` on the ASCII letters (the word-frequency regex
`[a-zA-Z]` only ever matches ASCII letters, so this fragment suffices). -/
def pyLower (c : Char) : Char :=
  if 65 ≤ c.toNat ∧ c.toNat ≤ 90 then Char.ofNat (c.toNat + 32) else c

/-- ASCII lower-case letter. -/
def isAsciiLower (c : Char) : Bool := 97 ≤ c.toNat && c.toNat ≤ 122

/-- The character class `[a-zA-Z]`. -/
def isAsciiAlpha (c : Char) : Bool :=
  (97 ≤ c.toNat && c.toNat ≤ 122) || (65 ≤ c.toNat && c.toNat ≤ 90)

/-- A word character for the `\b` boundaries of the frequency regex
(`[a-zA-Z0-9_]`, the ASCII fragment of Python's `\w`). -/
def isWordChar (c : Char) : Bool :=
  isAsciiAlpha c || (48 ≤ c.toNat && c.toNat ≤ 57) || c = '_'

mutual

/-- Maximal word-character runs of a string: worker while outside a run. -/
def wordRunsOut : Str → List Str
  | [] => []
  | c :: rest => if isWordChar c then wordRunsIn [c] rest else wordRunsOut rest

/-- Maximal word-character runs: worker inside a run (`racc` reversed). -/
def wordRunsIn (racc : Str) : Str → List Str
  | [] => [racc.reverse]
  | c :: rest =>
    if isWordChar c then wordRunsIn (c :: racc) rest
    else racc.reverse :: wordRunsOut rest

end

/-- `re.findall(r'\b[a-zA-Z]{3,}\b', text.lower())` (src/backend/app.py,
line 83): because `\b` only holds at the edge of a maximal `\w` run, the
matches are exactly the maximal word-character runs of the lower-cased text
that consist purely of letters and have length at least 3. -/
def word_tokens (text : Str) : List Str :=
  (wordRunsOut (text.map pyLower)).filter
    (fun r => decide (3 ≤ r.length) && r.all isAsciiAlpha)

/-- One iteration of the counting loop (lines 84-89); the insertion-ordered
Python dict is modelled as an association list with distinct keys. -/
def bumpWord (freq : List (Str × Nat)) (w : Str) : List (Str × Nat) :=
  if w ∈ freq.map Prod.fst then
    freq.map (fun p => if p.1 = w then (p.1, p.2 + 1) else p)
  else freq ++ [(w, 1)]

/-- The `word_freq` dict after the counting loop over the token stream. -/
def countWords (ws : List Str) : List (Str × Nat) := ws.foldl bumpWord []

/-- Stable insertion: a new element goes after every earlier element of
count at least its own, so earlier elements stay before equal-count ones. -/
def insertByCountDesc (x : Str × Nat) : List (Str × Nat) →
    List (Str × Nat)
  | [] => [x]
  | y :: ys => if y.2 ≤ x.2 then x :: y :: ys else y :: insertByCountDesc x ys

/-- `sorted(word_freq.items(), key=lambda item: item[1], reverse=True)`
(line 92): Python's sort is stable, and the output of a stable sort is
uniquely determined by the key function, so stable insertion sort is an
exact model. -/
def sortByCountDesc : List (Str × Nat) → List (Str × Nat)
  | [] => []
  | x :: xs => insertByCountDesc x (sortByCountDesc xs)

/-- The final `word_freq` mapping of `analyze_text` (line 92): the 20
highest-count tokens in descending count order. -/
def word_freq (text : Str) : List (Str × Nat) :=
  (sortByCountDesc (countWords (word_tokens text))).take 20

/-- Modelled from the spec: "ties broken by first-encountered order" — the
distinct tokens of a stream listed in the order each is first encountered.
The source realises this implicitly through dict insertion order. -/
def firstEncounterAux (seen : List Str) : List Str → List Str
  | [] => []
  | w :: ws =>
    if w ∈ seen then firstEncounterAux seen ws
    else w :: firstEncounterAux (seen ++ [w]) ws

/-- Modelled from the spec: first-encounter order of the distinct tokens. -/
def firstEncounterOrder (ws : List Str) : List Str := firstEncounterAux [] ws

mutual

/-- Worker for Python `text.split()` (split on whitespace runs, discarding
empty pieces): outside a word. -/
def splitWsOut : Str → List Str
  | [] => []
  | c :: rest => if isPySpace c then splitWsOut rest else splitWsIn [c] rest

/-- Worker for `text.split()`: inside a word (`racc` reversed). -/
def splitWsIn (racc : Str) : Str → List Str
  | [] => [racc.reverse]
  | c :: rest =>
    if isPySpace c then racc.reverse :: splitWsOut rest
    else splitWsIn (c :: racc) rest

end

/-- `word_count = len(text.split())` of `analyze_text` (line 75). -/
def word_count (text : Str) : Nat := (splitWsOut text).length

mutual

/-- Worker for `re.split(r'[.!?]+', text)` (line 77): inside a piece. -/
def splitTermAux (racc : Str) : Str → List Str
  | [] => [racc.reverse]
  | c :: rest =>
    if isTerm c then racc.reverse :: splitTermSkip rest
    else splitTermAux (c :: racc) rest

/-- Worker for `re.split(r'[.!?]+', text)`: inside a separator run. -/
def splitTermSkip : Str → List Str
  | [] => [[]]
  | c :: rest => if isTerm c then splitTermSkip rest else splitTermAux [c] rest

end

/-- `sentence_count` of `analyze_text` (lines 77-78): the non-blank pieces
left after splitting on runs of terminal punctuation. -/
def sentence_count (text : Str) : Nat :=
  ((splitTermAux [] text).filter (fun s => decide (pyStrip s ≠ []))).length

/-- Round half to even at integer precision over exact rationals (an
idealisation of Python's float `round`, which is round-half-even on the
binary representation). -/
def roundHalfEvenZ (q : ℚ) : ℤ :=
  if q - ⌊q⌋ < 1/2 then ⌊q⌋
  else if 1/2 < q - ⌊q⌋ then ⌊q⌋ + 1
  else if ⌊q⌋ % 2 = 0 then ⌊q⌋ else ⌊q⌋ + 1

/-- Python `round(x, 1)` idealised over exact rationals. -/
def roundTo1 (q : ℚ) : ℚ := (roundHalfEvenZ (q * 10) : ℚ) / 10

/-- `avg_words_per_sentence` of `analyze_text` (line 80). -/
def avg_words_per_sentence (text : Str) : ℚ :=
  roundTo1 ((word_count text : ℚ) / (max 1 (sentence_count text) : ℚ))

/-- First-entry lookup in an association list, i.e. dict access `freq[w]`
(0 when the key is absent); proof-side companion of `bumpWord`. -/
def getCount (freq : List (Str × Nat)) (w : Str) : Nat :=
  match freq with
  | [] => 0
  | p :: ps => if p.1 = w then p.2 else getCount ps w

/-- A fixture with 21 distinct tokens, the first of which appears twice, so
that exactly one token is pushed out of the top-20 table. -/
def wtext : Str :=
  str "aaa aab aac aad aae aaf aag aah aai aaj aak aal aam aan aao aap aaq aar aas aat aau aaa"

/-- A JSON value: the fragment produced and consumed by the export
round-trip (strings, arrays, objects). -/
inductive JVal where
  | jstr (s : Str)
  | jarr (elems : List JVal)
  | jobj (fields : List (Str × JVal))

/-- Hexadecimal digit character (lowercase, as emitted by `json.dumps`). -/
def hexDigitChar (n : Nat) : Char :=
  if n < 10 then Char.ofNat (48 + n) else Char.ofNat (87 + n)

/-- Four-digit lowercase hex rendering of `n < 0x10000`. -/
def toHex4 (n : Nat) : Str :=
  [hexDigitChar (n / 4096 % 16), hexDigitChar (n / 256 % 16),
   hexDigitChar (n / 16 % 16), hexDigitChar (n % 16)]

/-- `json.dumps` escaping of one character (`ensure_ascii=True`, the
default): two-character shortcuts, `\u00XX` for other control characters,
`\uXXXX` for every non-ASCII character, surrogate pairs beyond the BMP. -/
def escapeChar (c : Char) : Str :=
  if c = '"' then ['\\', '"']
  else if c = '\\' then ['\\', '\\']
  else if c = '\n' then ['\\', 'n']
  else if c = '\r' then ['\\', 'r']
  else if c = '\t' then ['\\', 't']
  else if c = '\x08' then ['\\', 'b']
  else if c = '\x0c' then ['\\', 'f']
  else if c.toNat < 32 then '\\' :: 'u' :: toHex4 c.toNat
  else if c.toNat ≤ 126 then [c]
  else if c.toNat ≤ 65535 then '\\' :: 'u' :: toHex4 c.toNat
  else ('\\' :: 'u' :: toHex4 (55296 + (c.toNat - 65536) / 1024))
    ++ ('\\' :: 'u' :: toHex4 (56320 + (c.toNat - 65536) % 1024))

/-- Body of a serialised JSON string. -/
def encStrBody (s : Str) : Str := (s.map escapeChar).flatten

/-- A serialised JSON string with its quotes. -/
def jstrRender (s : Str) : Str := '"' :: (encStrBody s ++ ['"'])

/-- Indentation at nesting depth `ind` for `json.dumps(..., indent=2)`. -/
def indentStr (ind : Nat) : Str := List.replicate (2 * ind) ' '

mutual

/-- `json.dumps(v, indent=2)` on the string/array/object fragment. -/
def renderVal (ind : Nat) : JVal → Str
  | JVal.jstr s => jstrRender s
  | JVal.jarr es =>
    match es with
    | [] => str "[]"
    | e :: tail =>
      str "[\n" ++ renderArrItems (ind + 1) e tail
        ++ '\n' :: (indentStr ind ++ [']'])
  | JVal.jobj fs =>
    match fs with
    | [] => str "\x7b\x7d"
    | f :: tail =>
      str "\x7b\n" ++ renderObjItems (ind + 1) f tail
        ++ '\n' :: (indentStr ind ++ ['\x7d'])
termination_by v => sizeOf v
decreasing_by all_goals simp_wf <;> omega

/-- The comma-and-newline separated items of a non-empty array. -/
def renderArrItems (ind : Nat) : JVal → List JVal → Str
  | e, [] => indentStr ind ++ renderVal ind e
  | e, e2 :: tail =>
    indentStr ind ++ renderVal ind e ++ str ",\n" ++ renderArrItems ind e2 tail
termination_by e tail => sizeOf e + sizeOf tail
decreasing_by all_goals simp_wf <;> omega

/-- The comma-and-newline separated fields of a non-empty object. -/
def renderObjItems (ind : Nat) : Str × JVal → List (Str × JVal) → Str
  | (k, v), [] => indentStr ind ++ jstrRender k ++ str ": " ++ renderVal ind v
  | (k, v), f2 :: tail =>
    indentStr ind ++ jstrRender k ++ str ": " ++ renderVal ind v
      ++ str ",\n" ++ renderObjItems ind f2 tail
termination_by f tail => sizeOf f + sizeOf tail
decreasing_by all_goals simp_wf <;> omega

end

/-- The `export_data` dict built in the `json` branch of `export_summary`
(src/backend/app.py, lines 394-408), with the three `meta`-derived scalars
modelled as strings. -/
def expectedExport (filename pages gdate wc sc avg : Str) (parts : List Str)
    (combined : Str) : JVal :=
  JVal.jobj
    [(str "document", JVal.jobj
        [(str "filename", JVal.jstr filename),
         (str "pages", JVal.jstr pages),
         (str "generated_date", JVal.jstr gdate)]),
     (str "analysis", JVal.jobj
        [(str "word_count", JVal.jstr wc),
         (str "sentence_count", JVal.jstr sc),
         (str "avg_words_per_sentence", JVal.jstr avg)]),
     (str "summary_parts", JVal.jarr (parts.map JVal.jstr)),
     (str "combined_summary", JVal.jstr combined)]

/-- `json_str = json.dumps(export_data, indent=2)` (line 410). -/
def dumps_export (filename pages gdate wc sc avg : Str) (parts : List Str)
    (combined : Str) : Str :=
  renderVal 0 (expectedExport filename pages gdate wc sc avg parts combined)

/-- The standard base64 alphabet. -/
def b64Alphabet : Str :=
  str "ABCDEFGHIJKLMNOPQRSTUVWXYZabcdefghijklmnopqrstuvwxyz0123456789+/"

/-- Encoding character for a 6-bit group. -/
def b64Char (n : Nat) : Char := b64Alphabet.getD n 'A'

/-- Index of a character in the base64 alphabet. -/
def b64CharVal (c : Char) : Nat := b64Alphabet.findIdx (fun d => d == c)

/-- `base64.b64encode` over a byte list. -/
def b64encode : List Nat → Str
  | [] => []
  | [a] => [b64Char (a / 4), b64Char (a % 4 * 16), '=', '=']
  | [a, b] =>
    [b64Char (a / 4), b64Char (a % 4 * 16 + b / 16), b64Char (b % 16 * 4), '=']
  | a :: b :: c :: rest =>
    b64Char (a / 4) :: b64Char (a % 4 * 16 + b / 16)
      :: b64Char (b % 16 * 4 + c / 64) :: b64Char (c % 64) :: b64encode rest

/-- `base64.b64decode` on well-padded input. -/
def b64decode : Str → List Nat
  | e1 :: e2 :: e3 :: e4 :: rest =>
    if e3 = '=' then [b64CharVal e1 * 4 + b64CharVal e2 / 16]
    else if e4 = '=' then
      [b64CharVal e1 * 4 + b64CharVal e2 / 16,
       b64CharVal e2 % 16 * 16 + b64CharVal e3 / 4]
    else
      (b64CharVal e1 * 4 + b64CharVal e2 / 16)
        :: (b64CharVal e2 % 16 * 16 + b64CharVal e3 / 4)
        :: (b64CharVal e3 % 4 * 64 + b64CharVal e4) :: b64decode rest
  | _ => []

/-- `str.encode()` on the ASCII JSON text (UTF-8 is the identity byte map on
ASCII, and `json.dumps` with `ensure_ascii` emits pure ASCII). -/
def strToBytes (s : Str) : List Nat := s.map Char.toNat

/-- UTF-8 decoding of ASCII bytes back to text. -/
def bytesToStr (bs : List Nat) : Str := bs.map Char.ofNat

/-- The `content` field of the `json` branch of `export_summary`
(line 413): `base64.b64encode(json_str.encode()).decode()`. -/
def export_summary_json (filename pages gdate wc sc avg : Str)
    (parts : List Str) (combined : Str) : Str :=
  b64encode (strToBytes
    (dumps_export filename pages gdate wc sc avg parts combined))

/-- JSON insignificant whitespace. -/
def isJsonWs (c : Char) : Bool := c = ' ' || c = '\t' || c = '\n' || c = '\r'

/-- Skip insignificant whitespace. -/
def skipJsonWs (s : Str) : Str := s.dropWhile isJsonWs

/-- Value of one hexadecimal digit character. -/
def hexDigitVal (c : Char) : Option Nat :=
  if 48 ≤ c.toNat ∧ c.toNat ≤ 57 then some (c.toNat - 48)
  else if 97 ≤ c.toNat ∧ c.toNat ≤ 102 then some (c.toNat - 87)
  else if 65 ≤ c.toNat ∧ c.toNat ≤ 70 then some (c.toNat - 55)
  else none

/-- Value of a four-hex-digit group. -/
def hex4 (c1 c2 c3 c4 : Char) : Option Nat :=
  match hexDigitVal c1, hexDigitVal c2, hexDigitVal c3, hexDigitVal c4 with
  | some d1, some d2, some d3, some d4 =>
    some (((d1 * 16 + d2) * 16 + d3) * 16 + d4)
  | _, _, _, _ => none

mutual

/-- Parse the body of a JSON string after the opening quote, handling the
escapes `json.dumps` produces (including surrogate pairs; a lone surrogate
is rejected since it has no place in well-formed text).  Returns the decoded
string and the input following the closing quote. -/
def parseStrBody : Str → Option (Str × Str)
  | [] => none
  | c :: rest =>
    if c = '"' then some ([], rest)
    else if c = '\\' then parseStrEsc rest
    else (fun pr => (c :: pr.1, pr.2)) <$> parseStrBody rest

/-- Continuation of the string scanner after a backslash. -/
def parseStrEsc : Str → Option (Str × Str)
  | [] => none
  | e :: rest2 =>
    if e = '"' then (fun pr => ('"' :: pr.1, pr.2)) <$> parseStrBody rest2
    else if e = '\\' then (fun pr => ('\\' :: pr.1, pr.2)) <$> parseStrBody rest2
    else if e = '/' then (fun pr => ('/' :: pr.1, pr.2)) <$> parseStrBody rest2
    else if e = 'n' then (fun pr => ('\n' :: pr.1, pr.2)) <$> parseStrBody rest2
    else if e = 'r' then (fun pr => ('\r' :: pr.1, pr.2)) <$> parseStrBody rest2
    else if e = 't' then (fun pr => ('\t' :: pr.1, pr.2)) <$> parseStrBody rest2
    else if e = 'b' then (fun pr => ('\x08' :: pr.1, pr.2)) <$> parseStrBody rest2
    else if e = 'f' then (fun pr => ('\x0c' :: pr.1, pr.2)) <$> parseStrBody rest2
    else if e = 'u' then parseStrU rest2
    else none

/-- Continuation after `\u`: four hex digits, then either an ordinary code
point or a high surrogate awaiting its partner. -/
def parseStrU : Str → Option (Str × Str)
  | c1 :: c2 :: c3 :: c4 :: rest3 =>
    match hex4 c1 c2 c3 c4 with
    | some h =>
      if 55296 ≤ h ∧ h ≤ 56319 then parseStrPair h rest3
      else if 56320 ≤ h ∧ h ≤ 57343 then none
      else (fun pr => (Char.ofNat h :: pr.1, pr.2)) <$> parseStrBody rest3
    | none => none
  | _ => none

/-- After a high surrogate the encoder always emits the `\u` of its
partner. -/
def parseStrPair (h : Nat) : Str → Option (Str × Str)
  | b1 :: u2 :: rest =>
    if b1 = '\\' ∧ u2 = 'u' then parseStrLow h rest else none
  | _ => none

/-- The low-surrogate half `\uDCxx` completing an astral code point. -/
def parseStrLow (h : Nat) : Str → Option (Str × Str)
  | g1 :: g2 :: g3 :: g4 :: rest4 =>
    match hex4 g1 g2 g3 g4 with
    | some lo =>
      if 56320 ≤ lo ∧ lo ≤ 57343 then
        (fun pr => (Char.ofNat (65536 + (h - 55296) * 1024 + (lo - 56320))
          :: pr.1, pr.2)) <$> parseStrBody rest4
      else none
    | none => none
  | _ => none

end

mutual

/-- Fuel-bounded recursive-descent JSON value parser (the model of
`json.loads` on the fragment the export emits). -/
def parseVal : Nat → Str → Option (JVal × Str)
  | 0, _ => none
  | fuel + 1, s =>
    match skipJsonWs s with
    | [] => none
    | c :: rest =>
      if c = '"' then (fun pr => (JVal.jstr pr.1, pr.2)) <$> parseStrBody rest
      else if c = '[' then
        match skipJsonWs rest with
        | c2 :: rest2 =>
          if c2 = ']' then some (JVal.jarr [], rest2)
          else (fun pr => (JVal.jarr pr.1, pr.2)) <$> parseArrItems fuel rest
        | [] => none
      else if c = '\x7b' then
        match skipJsonWs rest with
        | c2 :: rest2 =>
          if c2 = '\x7d' then some (JVal.jobj [], rest2)
          else (fun pr => (JVal.jobj pr.1, pr.2)) <$> parseObjItems fuel rest
        | [] => none
      else none

/-- One-or-more comma-separated array items up to `]`. -/
def parseArrItems : Nat → Str → Option (List JVal × Str)
  | 0, _ => none
  | fuel + 1, s =>
    match parseVal fuel s with
    | none => none
    | some (v, rest) =>
      match skipJsonWs rest with
      | c :: rest2 =>
        if c = ',' then (fun pr => (v :: pr.1, pr.2)) <$> parseArrItems fuel rest2
        else if c = ']' then some ([v], rest2)
        else none
      | [] => none

/-- One-or-more comma-separated key/value fields up to the closing brace. -/
def parseObjItems : Nat → Str → Option (List (Str × JVal) × Str)
  | 0, _ => none
  | fuel + 1, s =>
    match skipJsonWs s with
    | c :: rest =>
      if c = '"' then
        match parseStrBody rest with
        | none => none
        | some (key, rest2) =>
          match skipJsonWs rest2 with
          | c2 :: rest3 =>
            if c2 = ':' then
              match parseVal fuel rest3 with
              | none => none
              | some (v, rest4) =>
                match skipJsonWs rest4 with
                | c3 :: rest5 =>
                  if c3 = ',' then
                    (fun pr => ((key, v) :: pr.1, pr.2))
                      <$> parseObjItems fuel rest5
                  else if c3 = '\x7d' then some ([(key, v)], rest5)
                  else none
                | [] => none
            else none
          | [] => none
      else none
    | [] => none

end

/-- `json.loads`: parse one value and require only whitespace to remain. -/
def parseJson (s : Str) : Option JVal :=
  match parseVal (s.length + 1) s with
  | some (v, rest) => if skipJsonWs rest = [] then some v else none
  | none => none

/-- Look up a field of a JSON object. -/
def jsonField (key : Str) : JVal → Option JVal
  | JVal.jobj fields => (fields.find? (fun f => f.1 == key)).map Prod.snd
  | _ => none

/-! ### Theorems -/


theorem splitSentencesAux_ne_nil :
    ∀ (l : Str) (racc : Str), splitSentencesAux racc l ≠ [] := by
  intro l
  induction l with
  | nil => intro racc; simp [splitSentencesAux]
  | cons c rest ih =>
    intro racc
    simp only [splitSentencesAux]
    split
    · simp
    · exact ih (c :: racc)

theorem splitSentences_ne_nil (text : Str) : splitSentences text ≠ [] :=
  splitSentencesAux_ne_nil text []

theorem splitDotSpace_ne_nil :
    ∀ l : Str, (∀ racc, splitDotSpaceAux racc l ≠ []) ∧
      (∀ racc, splitDotSpaceDot racc l ≠ []) := by
  intro l
  induction l with
  | nil => exact ⟨fun racc => by simp [splitDotSpaceAux],
      fun racc => by simp [splitDotSpaceDot]⟩
  | cons c rest ih =>
    refine ⟨fun racc => ?_, fun racc => ?_⟩
    · simp only [splitDotSpaceAux]
      split
      · exact ih.2 racc
      · exact ih.1 (c :: racc)
    · simp only [splitDotSpaceDot]
      split
      · simp
      · split
        · exact ih.2 ('.' :: racc)
        · exact ih.1 (c :: '.' :: racc)

theorem chunkStep_buf_ne_nil (maxTokens : Int) (st : List Str × Str)
    (s : Str) : (chunkStep maxTokens st s).2 ≠ [] := by
  unfold chunkStep
  split <;> simp

theorem chunkStepUpd_buf_ne_nil (maxTokens : Int) (st : List Str × Str)
    (s : Str) : (chunkStepUpd maxTokens st s).2 ≠ [] := by
  unfold chunkStepUpd
  split <;> simp [str]

theorem foldl_chunkStep_buf_ne_nil (maxTokens : Int) :
    ∀ (l : List Str) (st : List Str × Str), l ≠ [] ∨ st.2 ≠ [] →
      (l.foldl (chunkStep maxTokens) st).2 ≠ [] := by
  intro l
  induction l with
  | nil =>
    intro st h
    exact h.resolve_left (by simp)
  | cons s rest ih =>
    intro st _
    exact ih (chunkStep maxTokens st s) (Or.inr (chunkStep_buf_ne_nil _ _ _))

theorem foldl_chunkStepUpd_buf_ne_nil (maxTokens : Int) :
    ∀ (l : List Str) (st : List Str × Str), l ≠ [] ∨ st.2 ≠ [] →
      (l.foldl (chunkStepUpd maxTokens) st).2 ≠ [] := by
  intro l
  induction l with
  | nil =>
    intro st h
    exact h.resolve_left (by simp)
  | cons s rest ih =>
    intro st _
    exact ih (chunkStepUpd maxTokens st s) (Or.inr (chunkStepUpd_buf_ne_nil _ _ _))

theorem finishChunks_ne_nil (st : List Str × Str) (h : st.2 ≠ []) :
    finishChunks st ≠ [] := by
  unfold finishChunks
  rw [if_neg h]
  simp

/-- C10: for every input string (including the empty string and
whitespace-only strings) and every `max_tokens` value, both chunkers return
at least one chunk: the running buffer always ends with the freshly appended
separator, hence is non-empty after the loop and is always flushed, so the
returned list is never empty. -/
theorem c10_chunker_never_empty (text : Str) (maxTokens : Int) :
    chunk_text text maxTokens ≠ [] ∧ chunk_text_updated text maxTokens ≠ [] := by
  constructor
  · exact finishChunks_ne_nil _
      (foldl_chunkStep_buf_ne_nil maxTokens _ _ (Or.inl (splitSentences_ne_nil text)))
  · exact finishChunks_ne_nil _
      (foldl_chunkStepUpd_buf_ne_nil maxTokens _ _ (Or.inl ((splitDotSpace_ne_nil text).1 [])))

/-- C5, counterexample: `chunk_text("", 700)` does not return an empty
sequence; `re.split` returns `[""]` on the empty string, the single empty
sentence makes the buffer `" "`, which is truthy and is flushed as the
chunk `""`. -/
theorem c5_counterexample : chunk_text (str "") 700 ≠ [] := by decide

/-- C5, amended: for every `N > 0`, calling the backend chunker on the empty
string returns the one-element sequence containing the empty string (not an
empty sequence). -/
theorem c5_chunk_empty_amended (maxTokens : Int) (hpos : 0 < maxTokens) :
    chunk_text (str "") maxTokens = [str ""] := by
  show finishChunks ((splitSentences []).foldl (chunkStep maxTokens) ([], [])) = [[]]
  have hsp : splitSentences ([] : Str) = [[]] := rfl
  rw [hsp]
  simp only [List.foldl]
  rw [chunkStep]
  rw [if_pos (by simpa using Int.le_of_lt hpos)]
  rfl

theorem c5_chunk_empty_amended_witness :
    (0 : Int) < 700 ∧ chunk_text (str "") 700 = [str ""] :=
  ⟨by decide, c5_chunk_empty_amended 700 (by decide)⟩

theorem pyStrip_append_space (s : Str) : pyStrip (s ++ [' ']) = pyStrip s := by
  unfold pyStrip
  rcases h : s.dropWhile isPySpace with _ | ⟨c, t⟩
  · rw [List.dropWhile_append, h]
    simp [isPySpace]
  · rw [List.dropWhile_append, h]
    simp only [List.isEmpty_cons, Bool.false_eq_true, if_false]
    rw [List.reverse_append]
    simp only [List.reverse_cons, List.reverse_nil, List.nil_append,
      List.singleton_append]
    rw [List.dropWhile_cons_of_pos (by simp [isPySpace])]

/-- C3: an input that is one single sentence (the sentence splitter returns
the text itself as the only candidate, and the text carries no surrounding
whitespace) whose length exceeds `max_tokens > 0` yields exactly one chunk,
containing the whole sentence untruncated. -/
theorem c3_oversized_sentence_one_chunk (text : Str) (maxTokens : Int)
    (hone : splitSentences text = [text]) (hstrip : pyStrip text = text)
    (hpos : 0 < maxTokens) (hlong : maxTokens < (text.length : Int)) :
    chunk_text text maxTokens = [text] := by
  unfold chunk_text
  rw [hone]
  simp only [List.foldl]
  unfold chunkStep
  rw [if_neg (by simp; omega)]
  simp [finishChunks, pyStrip_append_space, hstrip]

theorem renderBuf_nil : renderBuf [] = [] := rfl

theorem renderBuf_singleton (s : Str) : renderBuf [s] = s ++ [' '] := by
  simp [renderBuf]

theorem renderBuf_append_one (g : List Str) (s : Str) :
    renderBuf (g ++ [s]) = renderBuf g ++ (s ++ [' ']) := by
  simp [renderBuf]

theorem renderBuf_eq_nil_iff (g : List Str) : renderBuf g = [] ↔ g = [] := by
  cases g with
  | nil => simp [renderBuf]
  | cons s t =>
    simp only [renderBuf, List.map_cons, List.flatten]
    constructor
    · intro h
      exact absurd h (by simp)
    · intro h
      exact absurd h (by simp)

/-- Loop invariant for the chunking fold: starting from a buffer holding the
sentence group `gcur` and already-emitted chunks `chunksAcc`, the remaining
sentences are distributed into contiguous non-empty groups, and the final
chunk list renders each group as the trimmed space-joined buffer. -/
theorem chunk_fold_groups (maxTokens : Int) :
    ∀ (sentences : List Str) (gcur : List Str) (chunksAcc : List Str),
      ∃ groups : List (List Str),
        groups.flatten = gcur ++ sentences ∧ (∀ g ∈ groups, g ≠ []) ∧
        finishChunks
            (sentences.foldl (chunkStep maxTokens) (chunksAcc, renderBuf gcur))
          = chunksAcc ++ groups.map (fun g => pyStrip (renderBuf g)) := by
  intro sentences
  induction sentences with
  | nil =>
    intro gcur chunksAcc
    by_cases hg : gcur = []
    · subst hg
      exact ⟨[], by simp, by simp, by simp [finishChunks, renderBuf_nil]⟩
    · refine ⟨[gcur], by simp, by simp [hg], ?_⟩
      have hrb : renderBuf gcur ≠ [] := fun h => hg ((renderBuf_eq_nil_iff gcur).mp h)
      simp [finishChunks, hrb]
  | cons s rest ih =>
    intro gcur chunksAcc
    simp only [List.foldl]
    by_cases hc : (renderBuf gcur).length + (s.length : Int) ≤ maxTokens
    · have hstep : chunkStep maxTokens (chunksAcc, renderBuf gcur) s
          = (chunksAcc, renderBuf (gcur ++ [s])) := by
        unfold chunkStep
        rw [if_pos (by simpa using hc)]
        rw [renderBuf_append_one]
        simp
      rw [hstep]
      obtain ⟨groups, hjoin, hne, hres⟩ := ih (gcur ++ [s]) chunksAcc
      exact ⟨groups, by simpa using hjoin, hne, hres⟩
    · by_cases hg : gcur = []
      · subst hg
        have hstep : chunkStep maxTokens (chunksAcc, renderBuf []) s
            = (chunksAcc, renderBuf [s]) := by
          unfold chunkStep
          rw [if_neg (by simpa using hc)]
          simp [renderBuf_nil, renderBuf_singleton]
        rw [hstep]
        obtain ⟨groups, hjoin, hne, hres⟩ := ih [s] chunksAcc
        exact ⟨groups, by simpa using hjoin, hne, hres⟩
      · have hrb : renderBuf gcur ≠ [] := fun h => hg ((renderBuf_eq_nil_iff gcur).mp h)
        have hstep : chunkStep maxTokens (chunksAcc, renderBuf gcur) s
            = (chunksAcc ++ [pyStrip (renderBuf gcur)], renderBuf [s]) := by
          unfold chunkStep
          rw [if_neg (by simpa using hc)]
          simp [hrb, renderBuf_singleton]
        rw [hstep]
        obtain ⟨groups, hjoin, hne, hres⟩ :=
          ih [s] (chunksAcc ++ [pyStrip (renderBuf gcur)])
        refine ⟨gcur :: groups, ?_, ?_, ?_⟩
        · simp [hjoin]
        · intro g hmem
          rcases List.mem_cons.mp hmem with h | h
          · subst h; exact hg
          · exact hne g h
        · rw [hres]
          simp

/-- C2: for non-empty text and positive `max_tokens`, the chunker's output is
exactly a partition of the sentence-candidate sequence into contiguous
non-empty groups, in source order: no sentence is lost, none is duplicated,
and every chunk is the (whitespace-trimmed) space-join of one whole group of
consecutive sentences. -/
theorem c2_chunks_partition_sentences (text : Str) (maxTokens : Int)
    (hne : text ≠ []) (hpos : 0 < maxTokens) :
    ∃ groups : List (List Str),
      groups.flatten = splitSentences text ∧ (∀ g ∈ groups, g ≠ []) ∧
      chunk_text text maxTokens = groups.map (fun g => pyStrip (renderBuf g)) := by
  obtain ⟨groups, hjoin, hgne, hres⟩ :=
    chunk_fold_groups maxTokens (splitSentences text) [] []
  refine ⟨groups, by simpa using hjoin, hgne, ?_⟩
  rw [chunk_text]
  rw [show (renderBuf [] : Str) = [] from rfl] at hres
  rw [hres]
  simp

theorem c2_chunks_partition_sentences_witness :
    str "Aa. Bb. Cc." ≠ [] ∧ (0 : Int) < 7 ∧
      (∃ groups : List (List Str),
        groups.flatten = splitSentences (str "Aa. Bb. Cc.") ∧
        (∀ g ∈ groups, g ≠ []) ∧
        chunk_text (str "Aa. Bb. Cc.") 7
          = groups.map (fun g => pyStrip (renderBuf g))) :=
  ⟨by decide, by decide,
    c2_chunks_partition_sentences (str "Aa. Bb. Cc.") 7 (by decide) (by decide)⟩

theorem c3_oversized_sentence_one_chunk_witness :
    splitSentences (str "aaaaa") = [str "aaaaa"] ∧
      pyStrip (str "aaaaa") = str "aaaaa" ∧ (0 : Int) < 3 ∧
      (3 : Int) < ((str "aaaaa").length : Int) ∧
      chunk_text (str "aaaaa") 3 = [str "aaaaa"] :=
  ⟨by decide, by decide, by decide, by decide,
    c3_oversized_sentence_one_chunk (str "aaaaa") 3 (by decide) (by decide)
      (by decide) (by decide)⟩

/-- C8: a style string outside the five-entry table is passed through
unchanged as the instruction prefix text, and each of the five known names
resolves to its fixed table entry. -/
theorem c8_style_resolver_passthrough :
    (∀ style : Str, style ∉ knownStyleNames → getPromptPrefix style = style) ∧
    getPromptPrefix (str "Concise")
      = str "Provide a concise and brief summary of the following text: " ∧
    getPromptPrefix (str "Detailed")
      = str "Provide a comprehensive and detailed summary of the following text, including key points and main ideas: " ∧
    getPromptPrefix (str "Bullet Points")
      = str "Summarize the following text as a list of bullet points covering the main ideas: " ∧
    getPromptPrefix (str "Academic")
      = str "Create an academic summary of the following text, highlighting methodology, findings, and conclusions: " ∧
    getPromptPrefix (str "ELI5")
      = str "Explain the following text as if explaining to a 5-year old in simple terms: " := by
  refine ⟨?_, by decide, by decide, by decide, by decide, by decide⟩
  intro style hmem
  simp only [knownStyleNames, List.mem_cons, List.not_mem_nil] at hmem
  push_neg at hmem
  obtain ⟨h1, h2, h3, h4, h5, -⟩ := hmem
  simp [getPromptPrefix, h1, h2, h3, h4, h5]

theorem c8_style_resolver_passthrough_witness :
    str "Reply in pirate speak: " ∉ knownStyleNames ∧
      getPromptPrefix (str "Reply in pirate speak: ") = str "Reply in pirate speak: " :=
  ⟨by decide, c8_style_resolver_passthrough.1 (str "Reply in pirate speak: ") (by decide)⟩

theorem summarizeChunks_length (gen : Str → Int → Int → Except Str Str)
    (pfx : Str) (minLength maxLength : Int) :
    ∀ chunks : List Str,
      (summarizeChunks gen pfx minLength maxLength chunks).length = chunks.length := by
  intro chunks
  induction chunks with
  | nil => rfl
  | cons c rest ih => simp [summarizeChunks, ih]

theorem summarizeChunks_getElem (gen : Str → Int → Int → Except Str Str)
    (pfx : Str) (minLength maxLength : Int) :
    ∀ (chunks : List Str) (i : Nat) (chunk : Str), chunks[i]? = some chunk →
      (summarizeChunks gen pfx minLength maxLength chunks)[i]? =
        some (match gen (pfx ++ chunk) minLength maxLength with
          | .ok r => r
          | .error e => failureMessage e) := by
  intro chunks
  induction chunks with
  | nil => intro i chunk h; simp at h
  | cons c rest ih =>
    intro i chunk h
    cases i with
    | zero =>
      simp only [List.getElem?_cons_zero, Option.some.injEq] at h
      subst h
      simp [summarizeChunks]
    | succ n =>
      simp only [List.getElem?_cons_succ] at h
      simpa [summarizeChunks] using ih n chunk h

/-- C1: the pipeline returns exactly one summary part per chunk, in chunk
order, for every text, style, generation parameters and black-box generation
function; a failing generation call for chunk `i` yields the sentinel failure
message embedding the error description at position `i` and does not disturb
any other position. -/
theorem c1_pipeline_one_part_per_chunk (text style : Str)
    (maxTokens minLength maxLength : Int)
    (gen : Str → Int → Int → Except Str Str) :
    (summarize_long_text text gen style maxTokens minLength maxLength).length
        = (chunk_text text maxTokens).length ∧
    ∀ (i : Nat) (chunk : Str), (chunk_text text maxTokens)[i]? = some chunk →
      (summarize_long_text text gen style maxTokens minLength maxLength)[i]? =
        some (match gen (getPromptPrefix style ++ chunk) minLength maxLength with
          | .ok r => r
          | .error e => failureMessage e) := by
  constructor
  · exact summarizeChunks_length gen (getPromptPrefix style) minLength maxLength _
  · intro i chunk h
    exact summarizeChunks_getElem gen (getPromptPrefix style) minLength maxLength _ i chunk h

theorem c1_pipeline_one_part_per_chunk_witness :
    (chunk_text (str "Aa. Bb. Cc.") 7)[1]? = some (str "Cc.") ∧
    (summarize_long_text (str "Aa. Bb. Cc.") witnessGen (str "Concise") 7 100 350)[1]?
      = some (failureMessage (str "boom")) :=
  ⟨by decide, by
    have h := (c1_pipeline_one_part_per_chunk (str "Aa. Bb. Cc.") (str "Concise")
      7 100 350 witnessGen).2 1 (str "Cc.") (by decide)
    rw [h]
    rfl⟩

theorem dedupBullets_sublist :
    ∀ (bs seen : List Str),
      List.Sublist (dedupBullets seen bs) (bs.map (fun b => str "• " ++ pyStrip b)) := by
  intro bs
  induction bs with
  | nil => intro seen; simp [dedupBullets]
  | cons b rest ih =>
    intro seen
    simp only [dedupBullets, List.map_cons]
    split
    · exact List.Sublist.cons₂ _ (ih _)
    · exact List.Sublist.cons _ (ih _)

theorem dedupBullets_mem_shape :
    ∀ (bs seen : List Str) (x : Str),
      x ∈ dedupBullets seen bs → ∃ c, x = str "• " ++ c ∧ c ∉ seen := by
  intro bs
  induction bs with
  | nil => intro seen x hx; simp [dedupBullets] at hx
  | cons b rest ih =>
    intro seen x hx
    simp only [dedupBullets] at hx
    split at hx
    · rename_i hcond
      rcases List.mem_cons.mp hx with h | h
      · exact ⟨pyStrip b, h, hcond.2⟩
      · obtain ⟨c, hc1, hc2⟩ := ih _ x h
        exact ⟨c, hc1, fun hmem => hc2 (List.mem_cons_of_mem _ hmem)⟩
    · exact ih _ x hx

theorem dedupBullets_nodup :
    ∀ (bs seen : List Str), (dedupBullets seen bs).Nodup := by
  intro bs
  induction bs with
  | nil => intro seen; simp [dedupBullets]
  | cons b rest ih =>
    intro seen
    simp only [dedupBullets]
    split
    · refine List.nodup_cons.mpr ⟨?_, ih _⟩
      intro hmem
      obtain ⟨c, hc1, hc2⟩ := dedupBullets_mem_shape rest (pyStrip b :: seen) _ hmem
      have hceq : pyStrip b = c := by
        have h2 : str "• " ++ pyStrip b = str "• " ++ c := hc1
        exact List.append_cancel_left h2
      exact hc2 (hceq ▸ List.mem_cons_self _ _)
    · exact ih _

/-- C4: in bullet mode the combiner deduplicates the collected candidates by
exact trimmed-string equality keeping first occurrences; the surviving lines
are a sublist of the candidate renderings (so deduplication never reorders
them), no rendered line is ever repeated, and two parts holding the identical
bullet text produce that bullet exactly once. -/
theorem c4_bullet_combiner_dedup :
    (∀ summaries : List Str,
      get_combined_summary summaries (str "Bullet Points")
        = List.intercalate (str "\n") (dedupBullets [] (collectBullets summaries))) ∧
    (∀ seen bs : List Str,
      List.Sublist (dedupBullets seen bs) (bs.map (fun b => str "• " ++ pyStrip b))) ∧
    (∀ seen bs : List Str, (dedupBullets seen bs).Nodup) ∧
    get_combined_summary [str "• Apple", str "• Apple"] (str "Bullet Points")
      = str "• Apple" := by
  refine ⟨fun summaries => by rw [get_combined_summary, if_pos rfl],
    fun seen bs => dedupBullets_sublist bs seen,
    fun seen bs => dedupBullets_nodup bs seen, by decide⟩

/-- C7: the analyzer's average-words-per-sentence equals word count divided
by `max(1, sentence_count)` rounded to one decimal place; the floored
denominator is positive for every input (so the division-by-zero branch is
unreachable), even though `sentence_count` itself can be zero, as it is on
the empty text. -/
theorem c7_avg_denominator_safe (text : Str) :
    0 < max 1 (sentence_count text) ∧
    ((max 1 (sentence_count text) : ℚ) ≠ 0) ∧
    avg_words_per_sentence text
      = roundTo1 ((word_count text : ℚ) / (max 1 (sentence_count text) : ℚ)) ∧
    sentence_count (str "") = 0 := by
  have hpos : 0 < max 1 (sentence_count text) :=
    Nat.lt_of_lt_of_le Nat.zero_lt_one (le_max_left 1 _)
  refine ⟨hpos, ?_, rfl, by decide⟩
  exact_mod_cast hpos.ne'

theorem getCount_cons (p : Str × Nat) (ps : List (Str × Nat)) (x : Str) :
    getCount (p :: ps) x = if p.1 = x then p.2 else getCount ps x := rfl

theorem getCount_eq_zero_of_not_mem :
    ∀ (freq : List (Str × Nat)) (w : Str), w ∉ freq.map Prod.fst →
      getCount freq w = 0 := by
  intro freq
  induction freq with
  | nil => intro w _; rfl
  | cons p ps ih =>
    intro w h
    simp only [List.map_cons, List.mem_cons] at h
    push_neg at h
    simp only [getCount]
    rw [if_neg (Ne.symm h.1)]
    exact ih w h.2

theorem getCount_append_of_mem :
    ∀ (freq l : List (Str × Nat)) (x : Str), x ∈ freq.map Prod.fst →
      getCount (freq ++ l) x = getCount freq x := by
  intro freq
  induction freq with
  | nil => intro l x h; simp at h
  | cons p ps ih =>
    intro l x h
    simp only [List.cons_append, getCount]
    by_cases hp : p.1 = x
    · rw [if_pos hp, if_pos hp]
    · rw [if_neg hp, if_neg hp]
      refine ih l x ?_
      simp only [List.map_cons, List.mem_cons] at h
      exact h.resolve_left (fun he => hp he.symm)

theorem getCount_append_of_not_mem :
    ∀ (freq l : List (Str × Nat)) (x : Str), x ∉ freq.map Prod.fst →
      getCount (freq ++ l) x = getCount l x := by
  intro freq
  induction freq with
  | nil => intro l x _; rfl
  | cons p ps ih =>
    intro l x h
    simp only [List.map_cons, List.mem_cons] at h
    push_neg at h
    simp only [List.cons_append, getCount]
    rw [if_neg (Ne.symm h.1)]
    exact ih l x h.2

theorem getCount_mapBump :
    ∀ (freq : List (Str × Nat)) (w x : Str),
      getCount (freq.map (fun p => if p.1 = w then (p.1, p.2 + 1) else p)) x
        = if x = w ∧ x ∈ freq.map Prod.fst then getCount freq x + 1
          else getCount freq x := by
  intro freq
  induction freq with
  | nil => intro w x; simp [getCount]
  | cons p ps ih =>
    intro w x
    have hkey : (if p.1 = w then (p.1, p.2 + 1) else p).1 = p.1 := by
      split <;> rfl
    have hval : (if p.1 = w then (p.1, p.2 + 1) else p).2
        = if p.1 = w then p.2 + 1 else p.2 := by
      split <;> rfl
    simp only [List.map_cons, getCount_cons, hkey, hval, ih]
    by_cases hp : p.1 = x
    · simp only [if_pos hp]
      by_cases hw2 : x = w
      · have hpw : p.1 = w := by rw [hp, hw2]
        have hcond : x = w ∧ x ∈ p.1 :: ps.map Prod.fst :=
          ⟨hw2, by rw [← hp]; exact List.mem_cons_self _ _⟩
        simp only [if_pos hpw, if_pos hcond]
      · have hpw : ¬ p.1 = w := fun h => hw2 (hp ▸ h)
        have hcond : ¬ (x = w ∧ x ∈ p.1 :: ps.map Prod.fst) := fun hc => hw2 hc.1
        have hcond2 : ¬ (x = w ∧ x ∈ ps.map Prod.fst) := fun hc => hw2 hc.1
        simp only [if_neg hpw, if_neg hcond, if_neg hcond2]
    · simp only [if_neg hp]
      have hmemiff : (x ∈ p.1 :: ps.map Prod.fst) ↔ (x ∈ ps.map Prod.fst) :=
        ⟨fun h => (List.mem_cons.mp h).resolve_left fun he => hp he.symm,
          fun h => List.mem_cons_of_mem _ h⟩
      by_cases hc : x = w ∧ x ∈ ps.map Prod.fst
      · simp only [if_pos hc,
          if_pos (show x = w ∧ x ∈ p.1 :: ps.map Prod.fst from
            ⟨hc.1, hmemiff.mpr hc.2⟩)]
      · simp only [if_neg hc,
          if_neg (show ¬ (x = w ∧ x ∈ p.1 :: ps.map Prod.fst) from
            fun h2 => hc ⟨h2.1, hmemiff.mp h2.2⟩)]

theorem getCount_bumpWord (freq : List (Str × Nat)) (w x : Str) :
    getCount (bumpWord freq w) x
      = getCount freq x + (if x = w then 1 else 0) := by
  unfold bumpWord
  by_cases hw : w ∈ freq.map Prod.fst
  · rw [if_pos hw, getCount_mapBump]
    by_cases hx : x = w
    · subst hx
      rw [if_pos ⟨rfl, hw⟩, if_pos rfl]
    · rw [if_neg (fun hc : x = w ∧ _ => hx hc.1), if_neg hx]
      rfl
  · rw [if_neg hw]
    by_cases hx : x = w
    · subst hx
      rw [getCount_append_of_not_mem _ _ _ hw, getCount_eq_zero_of_not_mem _ _ hw]
      simp [getCount]
    · by_cases hxk : x ∈ freq.map Prod.fst
      · rw [getCount_append_of_mem _ _ _ hxk, if_neg hx]
        rfl
      · rw [getCount_append_of_not_mem _ _ _ hxk,
          getCount_eq_zero_of_not_mem _ _ hxk, if_neg hx]
        simp only [getCount]
        rw [if_neg (fun he => hx he.symm)]

theorem getCount_foldl_bumpWord :
    ∀ (ws : List Str) (acc : List (Str × Nat)) (x : Str),
      getCount (ws.foldl bumpWord acc) x = getCount acc x + ws.count x := by
  intro ws
  induction ws with
  | nil => intro acc x; simp
  | cons w ws ih =>
    intro acc x
    simp only [List.foldl_cons]
    rw [ih, getCount_bumpWord, List.count_cons]
    simp only [beq_iff_eq]
    by_cases hx : x = w
    · subst hx
      simp only [if_pos rfl]
      omega
    · rw [if_neg hx, if_neg (fun h => hx h.symm)]
      omega

theorem bumpWord_keys (freq : List (Str × Nat)) (w : Str) :
    (bumpWord freq w).map Prod.fst
      = if w ∈ freq.map Prod.fst then freq.map Prod.fst
        else freq.map Prod.fst ++ [w] := by
  unfold bumpWord
  by_cases h : w ∈ freq.map Prod.fst
  · rw [if_pos h, if_pos h, List.map_map]
    refine List.map_congr_left ?_
    intro p _
    simp only [Function.comp_apply]
    split <;> rfl
  · rw [if_neg h, if_neg h]
    simp

theorem bumpWord_keys_nodup (freq : List (Str × Nat)) (w : Str)
    (h : (freq.map Prod.fst).Nodup) :
    ((bumpWord freq w).map Prod.fst).Nodup := by
  rw [bumpWord_keys]
  by_cases hw : w ∈ freq.map Prod.fst
  · rwa [if_pos hw]
  · rw [if_neg hw]
    rw [List.nodup_append]
    exact ⟨h, List.nodup_singleton w, by simpa [List.disjoint_singleton] using hw⟩

theorem countWords_keys_aux :
    ∀ (ws : List Str) (acc : List (Str × Nat)),
      (acc.map Prod.fst).Nodup →
      ((ws.foldl bumpWord acc).map Prod.fst).Nodup ∧
      (ws.foldl bumpWord acc).map Prod.fst
        = acc.map Prod.fst ++ firstEncounterAux (acc.map Prod.fst) ws := by
  intro ws
  induction ws with
  | nil => intro acc h; exact ⟨h, by simp [firstEncounterAux]⟩
  | cons w ws ih =>
    intro acc h
    simp only [List.foldl_cons]
    obtain ⟨h1, h2⟩ := ih (bumpWord acc w) (bumpWord_keys_nodup acc w h)
    refine ⟨h1, ?_⟩
    rw [h2, bumpWord_keys]
    by_cases hw : w ∈ acc.map Prod.fst
    · rw [if_pos hw]
      simp only [firstEncounterAux]
      rw [if_pos hw]
    · rw [if_neg hw]
      simp only [firstEncounterAux]
      rw [if_neg hw]
      simp

theorem mem_keys_bumpWord_self (freq : List (Str × Nat)) (w : Str) :
    w ∈ (bumpWord freq w).map Prod.fst := by
  rw [bumpWord_keys]
  by_cases hw : w ∈ freq.map Prod.fst
  · rwa [if_pos hw]
  · rw [if_neg hw]; simp

theorem mem_keys_bumpWord_of_mem (freq : List (Str × Nat)) (w x : Str)
    (h : x ∈ freq.map Prod.fst) : x ∈ (bumpWord freq w).map Prod.fst := by
  rw [bumpWord_keys]
  by_cases hw : w ∈ freq.map Prod.fst
  · rwa [if_pos hw]
  · rw [if_neg hw]; exact List.mem_append_left _ h

theorem mem_keys_foldl_bumpWord :
    ∀ (ws : List Str) (acc : List (Str × Nat)) (x : Str),
      x ∈ ws ∨ x ∈ acc.map Prod.fst →
      x ∈ (ws.foldl bumpWord acc).map Prod.fst := by
  intro ws
  induction ws with
  | nil => intro acc x h; exact h.resolve_left (by simp)
  | cons w ws ih =>
    intro acc x h
    simp only [List.foldl_cons]
    rcases h with h | h
    · rcases List.mem_cons.mp h with he | hm
      · subst he; exact ih _ _ (Or.inr (mem_keys_bumpWord_self acc x))
      · exact ih _ _ (Or.inl hm)
    · exact ih _ _ (Or.inr (mem_keys_bumpWord_of_mem acc w x h))

theorem getCount_of_mem :
    ∀ freq : List (Str × Nat), (freq.map Prod.fst).Nodup →
      ∀ p ∈ freq, getCount freq p.1 = p.2 := by
  intro freq
  induction freq with
  | nil => intro _ p hp; simp at hp
  | cons q ps ih =>
    intro h p hp
    simp only [List.map_cons, List.nodup_cons] at h
    rcases List.mem_cons.mp hp with he | hm
    · subst he; simp [getCount]
    · have hne : q.1 ≠ p.1 :=
        fun he2 => h.1 (he2 ▸ List.mem_map_of_mem Prod.fst hm)
      simp only [getCount]
      rw [if_neg hne]
      exact ih h.2 p hm

theorem mem_of_mem_firstEncounterAux :
    ∀ (ws seen : List Str) (x : Str), x ∈ firstEncounterAux seen ws → x ∈ ws := by
  intro ws
  induction ws with
  | nil => intro seen x h; simp [firstEncounterAux] at h
  | cons w ws ih =>
    intro seen x h
    simp only [firstEncounterAux] at h
    split at h
    · exact List.mem_cons_of_mem _ (ih _ x h)
    · rcases List.mem_cons.mp h with he | hm
      · exact he ▸ List.mem_cons_self _ _
      · exact List.mem_cons_of_mem _ (ih _ x hm)

theorem insertByCountDesc_perm (x : Str × Nat) :
    ∀ l, (insertByCountDesc x l).Perm (x :: l) := by
  intro l
  induction l with
  | nil => simp [insertByCountDesc]
  | cons y ys ih =>
    simp only [insertByCountDesc]
    split
    · exact List.Perm.refl _
    · exact (ih.cons y).trans (List.Perm.swap x y ys)

theorem sortByCountDesc_perm : ∀ l, (sortByCountDesc l).Perm l := by
  intro l
  induction l with
  | nil => simp [sortByCountDesc]
  | cons x xs ih =>
    simp only [sortByCountDesc]
    exact (insertByCountDesc_perm x _).trans (ih.cons x)

theorem insertByCountDesc_pairwise (x : Str × Nat) :
    ∀ l, List.Pairwise (fun a b : Str × Nat => b.2 ≤ a.2) l →
      List.Pairwise (fun a b : Str × Nat => b.2 ≤ a.2) (insertByCountDesc x l) := by
  intro l
  induction l with
  | nil => intro _; simp [insertByCountDesc]
  | cons y ys ih =>
    intro h
    rw [List.pairwise_cons] at h
    simp only [insertByCountDesc]
    split
    · rename_i hle
      rw [List.pairwise_cons]
      refine ⟨?_, List.pairwise_cons.mpr h⟩
      intro z hz
      rcases List.mem_cons.mp hz with he | hm
      · exact he ▸ hle
      · exact le_trans (h.1 z hm) hle
    · rename_i hgt
      push_neg at hgt
      rw [List.pairwise_cons]
      refine ⟨?_, ih h.2⟩
      intro z hz
      have hz2 : z ∈ x :: ys := (insertByCountDesc_perm x ys).mem_iff.mp hz
      rcases List.mem_cons.mp hz2 with he | hm
      · exact he ▸ le_of_lt hgt
      · exact h.1 z hm

theorem sortByCountDesc_pairwise :
    ∀ l, List.Pairwise (fun a b : Str × Nat => b.2 ≤ a.2) (sortByCountDesc l) := by
  intro l
  induction l with
  | nil => simp [sortByCountDesc]
  | cons x xs ih => exact insertByCountDesc_pairwise x _ ih

theorem insertByCountDesc_filter (x : Str × Nat) (c : Nat) :
    ∀ l, (insertByCountDesc x l).filter (fun p => p.2 == c)
      = if x.2 = c then x :: l.filter (fun p => p.2 == c)
        else l.filter (fun p => p.2 == c) := by
  intro l
  induction l with
  | nil =>
    by_cases hx : x.2 = c <;>
      simp [insertByCountDesc, List.filter_singleton, beq_iff_eq, hx]
  | cons y ys ih =>
    simp only [insertByCountDesc]
    split
    · by_cases hx : x.2 = c <;> by_cases hy : y.2 = c <;>
        simp [List.filter_cons, hx, hy]
    · rename_i hgt
      push_neg at hgt
      rw [List.filter_cons, List.filter_cons, ih]
      by_cases hy : y.2 = c
      · have hx : ¬ x.2 = c := by omega
        simp [hy, hx]
      · by_cases hx : x.2 = c <;> simp [hy, hx]

theorem sortByCountDesc_filter (c : Nat) :
    ∀ l, (sortByCountDesc l).filter (fun p => p.2 == c)
      = l.filter (fun p => p.2 == c) := by
  intro l
  induction l with
  | nil => rfl
  | cons x xs ih =>
    simp only [sortByCountDesc]
    rw [insertByCountDesc_filter, List.filter_cons]
    by_cases hx : x.2 = c <;> simp [hx, ih]

theorem wordRuns_chars :
    ∀ l : Str,
      (∀ r ∈ wordRunsOut l, ∀ ch ∈ r, ch ∈ l) ∧
      (∀ racc r, r ∈ wordRunsIn racc l → ∀ ch ∈ r, ch ∈ racc ∨ ch ∈ l) := by
  intro l
  induction l with
  | nil =>
    constructor
    · intro r hr; simp [wordRunsOut] at hr
    · intro racc r hr ch hch
      simp only [wordRunsIn, List.mem_singleton] at hr
      subst hr
      exact Or.inl (List.mem_reverse.mp hch)
  | cons c rest ih =>
    constructor
    · intro r hr ch hch
      simp only [wordRunsOut] at hr
      split at hr
      · rcases ih.2 [c] r hr ch hch with h | h
        · simp only [List.mem_singleton] at h
          subst h
          exact List.mem_cons_self _ _
        · exact List.mem_cons_of_mem _ h
      · exact List.mem_cons_of_mem _ (ih.1 r hr ch hch)
    · intro racc r hr ch hch
      simp only [wordRunsIn] at hr
      split at hr
      · rcases ih.2 (c :: racc) r hr ch hch with h | h
        · rcases List.mem_cons.mp h with he | hm
          · exact Or.inr (he ▸ List.mem_cons_self _ _)
          · exact Or.inl hm
        · exact Or.inr (List.mem_cons_of_mem _ h)
      · rcases List.mem_cons.mp hr with he | hm
        · subst he
          exact Or.inl (List.mem_reverse.mp hch)
        · exact Or.inr (List.mem_cons_of_mem _ (ih.1 r hm ch hch))

theorem toNat_charOfNat_of_lt (n : Nat) (hn : n < 55296) :
    (Char.ofNat n).toNat = n := by
  have hv : n.isValidChar := Or.inl (by exact_mod_cast hn)
  unfold Char.ofNat
  rw [dif_pos hv]
  rfl

theorem isAsciiLower_pyLower (c0 : Char)
    (h : isAsciiAlpha (pyLower c0) = true) : isAsciiLower (pyLower c0) = true := by
  unfold pyLower at h ⊢
  by_cases hc : 65 ≤ c0.toNat ∧ c0.toNat ≤ 90
  · rw [if_pos hc] at h ⊢
    have hv : (Char.ofNat (c0.toNat + 32)).toNat = c0.toNat + 32 :=
      toNat_charOfNat_of_lt _ (by omega)
    unfold isAsciiLower
    rw [hv]
    simp only [Bool.and_eq_true, decide_eq_true_eq]
    omega
  · rw [if_neg hc] at h ⊢
    unfold isAsciiAlpha at h
    unfold isAsciiLower
    simp only [Bool.and_eq_true, Bool.or_eq_true, decide_eq_true_eq] at h ⊢
    push_neg at hc
    omega

theorem word_tokens_facts (text : Str) :
    ∀ w ∈ word_tokens text, 3 ≤ w.length ∧ ∀ ch ∈ w, isAsciiLower ch = true := by
  intro w hw
  unfold word_tokens at hw
  rw [List.mem_filter] at hw
  obtain ⟨hmem, hpred⟩ := hw
  rw [Bool.and_eq_true] at hpred
  refine ⟨by simpa using hpred.1, ?_⟩
  intro ch hch
  have halpha : isAsciiAlpha ch = true := by
    have h2 := hpred.2
    rw [List.all_eq_true] at h2
    exact h2 ch hch
  have hin : ch ∈ text.map pyLower :=
    (wordRuns_chars (text.map pyLower)).1 w hmem ch hch
  obtain ⟨c0, _, hc0⟩ := List.mem_map.mp hin
  rw [← hc0] at halpha ⊢
  exact isAsciiLower_pyLower c0 halpha

/-- C6: the word-frequency table of `analyze_text` is computed over
case-folded alphabetic tokens of length at least 3, and consists of the (at
most) 20 highest-count tokens with their true occurrence counts, as a
duplicate-free insertion-ordered mapping in descending count order, where
equal-count tokens appear in the dict's insertion order, which is the order
the tokens are first encountered in the text. -/
theorem c6_word_frequency (text : Str) :
    (∀ w ∈ word_tokens text, 3 ≤ w.length ∧ ∀ ch ∈ w, isAsciiLower ch = true) ∧
    (word_freq text).length = min 20 (countWords (word_tokens text)).length ∧
    List.Pairwise (fun a b : Str × Nat => b.2 ≤ a.2) (word_freq text) ∧
    ((word_freq text).map Prod.fst).Nodup ∧
    (∀ p ∈ word_freq text,
        p.2 = (word_tokens text).count p.1 ∧ p.1 ∈ word_tokens text) ∧
    (∀ w ∈ word_tokens text, w ∉ (word_freq text).map Prod.fst →
        ∀ p ∈ word_freq text, (word_tokens text).count w ≤ p.2) ∧
    (∀ c : Nat, ∃ t, (countWords (word_tokens text)).filter (fun p => p.2 == c)
        = (word_freq text).filter (fun p => p.2 == c) ++ t) ∧
    (countWords (word_tokens text)).map Prod.fst
      = firstEncounterOrder (word_tokens text) := by
  set ws := word_tokens text with hws
  set cw := countWords ws with hcw
  have hinv := countWords_keys_aux ws [] (by simp)
  have hnodup_cw : (cw.map Prod.fst).Nodup := hinv.1
  have hkeys_cw : cw.map Prod.fst = firstEncounterOrder ws := by
    have h2 := hinv.2
    simpa [firstEncounterOrder, countWords] using h2
  have hperm : (sortByCountDesc cw).Perm cw := sortByCountDesc_perm cw
  have hpair : List.Pairwise (fun a b : Str × Nat => b.2 ≤ a.2)
      (sortByCountDesc cw) := sortByCountDesc_pairwise cw
  have hwf : word_freq text = (sortByCountDesc cw).take 20 := rfl
  have hcount : ∀ p ∈ cw, p.2 = ws.count p.1 := by
    intro p hp
    have h1 := getCount_of_mem cw hnodup_cw p hp
    have h2 : getCount cw p.1 = ws.count p.1 := by
      have h3 := getCount_foldl_bumpWord ws [] p.1
      simpa [hcw, countWords, getCount] using h3
    omega
  have hmem_cw : ∀ p ∈ word_freq text, p ∈ cw := by
    intro p hp
    rw [hwf] at hp
    exact hperm.mem_iff.mp (List.mem_of_mem_take hp)
  refine ⟨word_tokens_facts text, ?_, ?_, ?_, ?_, ?_, ?_, hkeys_cw⟩
  · rw [hwf, List.length_take, hperm.length_eq]
  · rw [hwf]
    exact List.Pairwise.sublist (List.take_sublist _ _) hpair
  · have h1 : ((sortByCountDesc cw).map Prod.fst).Nodup :=
      (hperm.map Prod.fst).nodup_iff.mpr hnodup_cw
    rw [hwf]
    exact List.Nodup.sublist (List.Sublist.map Prod.fst (List.take_sublist _ _)) h1
  · intro p hp
    have hpcw := hmem_cw p hp
    refine ⟨hcount p hpcw, ?_⟩
    have hmem : p.1 ∈ cw.map Prod.fst := List.mem_map_of_mem Prod.fst hpcw
    rw [hkeys_cw] at hmem
    exact mem_of_mem_firstEncounterAux ws [] p.1 hmem
  · intro w hw hnotin p hp
    have hwkey : w ∈ cw.map Prod.fst := by
      rw [hcw, countWords]
      exact mem_keys_foldl_bumpWord ws [] w (Or.inl hw)
    obtain ⟨q, hq, hq1⟩ := List.mem_map.mp hwkey
    have hq2 : q.2 = ws.count w := by rw [← hq1]; exact hcount q hq
    have hqs : q ∈ sortByCountDesc cw := hperm.mem_iff.mpr hq
    have hsplit : sortByCountDesc cw
        = (sortByCountDesc cw).take 20 ++ (sortByCountDesc cw).drop 20 :=
      (List.take_append_drop _ _).symm
    have hq3 : q ∈ (sortByCountDesc cw).take 20 ∨
        q ∈ (sortByCountDesc cw).drop 20 := by
      rw [hsplit] at hqs
      exact List.mem_append.mp hqs
    rcases hq3 with h | h
    · exact absurd (hwf ▸ (hq1 ▸ List.mem_map_of_mem Prod.fst h)) hnotin
    · have hpair2 : List.Pairwise (fun a b : Str × Nat => b.2 ≤ a.2)
          ((sortByCountDesc cw).take 20 ++ (sortByCountDesc cw).drop 20) := by
        rw [← hsplit]; exact hpair
      have hcross := (List.pairwise_append.mp hpair2).2.2 p (by rwa [hwf] at hp) q h
      omega
  · intro c
    refine ⟨((sortByCountDesc cw).drop 20).filter (fun p => p.2 == c), ?_⟩
    have h1 : cw.filter (fun p => p.2 == c)
        = (sortByCountDesc cw).filter (fun p => p.2 == c) :=
      (sortByCountDesc_filter c cw).symm
    have h2 : (sortByCountDesc cw).filter (fun p => p.2 == c)
        = ((sortByCountDesc cw).take 20).filter (fun p => p.2 == c)
          ++ ((sortByCountDesc cw).drop 20).filter (fun p => p.2 == c) := by
      conv_lhs => rw [← List.take_append_drop 20 (sortByCountDesc cw)]
      rw [List.filter_append]
    rw [h1, h2, hwf]

theorem c6_word_frequency_witness :
    str "aau" ∈ word_tokens wtext ∧
    str "aau" ∉ (word_freq wtext).map Prod.fst ∧
    ∀ p ∈ word_freq wtext, (word_tokens wtext).count (str "aau") ≤ p.2 :=
  ⟨by decide, by decide,
    (c6_word_frequency wtext).2.2.2.2.2.1 (str "aau") (by decide) (by decide)⟩

theorem b64CharVal_b64Char : ∀ n, n < 64 → b64CharVal (b64Char n) = n := by
  decide

theorem b64Char_ne_pad : ∀ n, n < 64 → b64Char n ≠ '=' := by decide

theorem b64decode_encode_bounded :
    ∀ (n : Nat) (bs : List Nat), bs.length ≤ n → (∀ b ∈ bs, b < 256) →
      b64decode (b64encode bs) = bs := by
  intro n
  induction n with
  | zero =>
    intro bs hl _
    have hnil : bs = [] := List.length_eq_zero.mp (Nat.le_zero.mp hl)
    subst hnil
    rfl
  | succ n ih =>
    intro bs hl hb
    match bs with
    | [] => rfl
    | [a] =>
      have ha : a < 256 := hb a (by simp)
      simp only [b64encode, b64decode]
      rw [b64CharVal_b64Char _ (by omega), b64CharVal_b64Char _ (by omega)]
      simp only [if_true]
      simp only [List.cons.injEq, and_true]
      omega
    | [a, b] =>
      have ha : a < 256 := hb a (by simp)
      have hbb : b < 256 := hb b (by simp)
      simp only [b64encode, b64decode]
      rw [if_neg (b64Char_ne_pad _ (by omega)),
        b64CharVal_b64Char _ (by omega), b64CharVal_b64Char _ (by omega),
        b64CharVal_b64Char _ (by omega)]
      simp only [if_true]
      simp only [List.cons.injEq, and_true]
      exact ⟨by omega, by omega⟩
    | a :: b :: c :: rest =>
      have ha : a < 256 := hb a (by simp)
      have hbb : b < 256 := hb b (by simp)
      have hc : c < 256 := hb c (by simp)
      simp only [b64encode, b64decode]
      rw [if_neg (b64Char_ne_pad _ (by omega)), if_neg (b64Char_ne_pad _ (by omega)),
        b64CharVal_b64Char _ (by omega), b64CharVal_b64Char _ (by omega),
        b64CharVal_b64Char _ (by omega), b64CharVal_b64Char _ (by omega)]
      have hrest : b64decode (b64encode rest) = rest := by
        refine ih rest ?_ ?_
        · simp only [List.length_cons] at hl
          omega
        · intro x hx
          exact hb x (by simp [hx])
      rw [hrest]
      simp only [List.cons.injEq, and_true]
      exact ⟨by omega, by omega, by omega⟩

theorem b64_roundtrip (bs : List Nat) (hb : ∀ b ∈ bs, b < 256) :
    b64decode (b64encode bs) = bs :=
  b64decode_encode_bounded bs.length bs le_rfl hb

theorem bytesToStr_strToBytes (s : Str) : bytesToStr (strToBytes s) = s := by
  simp only [bytesToStr, strToBytes, List.map_map]
  conv_rhs => rw [← List.map_id s]
  refine List.map_congr_left ?_
  intro c _
  simp [Function.comp, Char.ofNat_toNat]

theorem hexDigitChar_lt_256 : ∀ n, n < 16 → (hexDigitChar n).toNat < 256 := by
  decide

theorem toHex4_ascii (n : Nat) : ∀ ch ∈ toHex4 n, ch.toNat < 256 := by
  intro ch hch
  simp only [toHex4, List.mem_cons, List.not_mem_nil, or_false] at hch
  rcases hch with h | h | h | h <;> subst h <;>
    exact hexDigitChar_lt_256 _ (Nat.mod_lt _ (by omega))

set_option maxHeartbeats 1000000 in
theorem escapeChar_ascii (c : Char) : ∀ ch ∈ escapeChar c, ch.toNat < 256 := by
  intro ch hch
  unfold escapeChar at hch
  split_ifs at hch with h1 h2 h3 h4 h5 h6 h7 h8 h9 h10
  · simp only [List.mem_cons, List.not_mem_nil, or_false] at hch
    rcases hch with h | h <;> subst h <;> decide
  · simp only [List.mem_cons, List.not_mem_nil, or_false] at hch
    rcases hch with h | h <;> subst h <;> decide
  · simp only [List.mem_cons, List.not_mem_nil, or_false] at hch
    rcases hch with h | h <;> subst h <;> decide
  · simp only [List.mem_cons, List.not_mem_nil, or_false] at hch
    rcases hch with h | h <;> subst h <;> decide
  · simp only [List.mem_cons, List.not_mem_nil, or_false] at hch
    rcases hch with h | h <;> subst h <;> decide
  · simp only [List.mem_cons, List.not_mem_nil, or_false] at hch
    rcases hch with h | h <;> subst h <;> decide
  · simp only [List.mem_cons, List.not_mem_nil, or_false] at hch
    rcases hch with h | h <;> subst h <;> decide
  · simp only [List.mem_cons] at hch
    rcases hch with h | h | h
    · subst h; decide
    · subst h; decide
    · exact toHex4_ascii _ ch h
  · simp only [List.mem_cons, List.not_mem_nil, or_false] at hch
    subst hch
    omega
  · simp only [List.mem_cons] at hch
    rcases hch with h | h | h
    · subst h; decide
    · subst h; decide
    · exact toHex4_ascii _ ch h
  · simp only [List.mem_append, List.mem_cons] at hch
    rcases hch with (h | h | h) | (h | h | h)
    · subst h; decide
    · subst h; decide
    · exact toHex4_ascii _ ch h
    · subst h; decide
    · subst h; decide
    · exact toHex4_ascii _ ch h

theorem encStrBody_ascii (s : Str) : ∀ ch ∈ encStrBody s, ch.toNat < 256 := by
  intro ch hch
  simp only [encStrBody, List.mem_flatten, List.mem_map] at hch
  obtain ⟨l, ⟨c, _, rfl⟩, hch⟩ := hch
  exact escapeChar_ascii c ch hch

theorem jstrRender_ascii (s : Str) : ∀ ch ∈ jstrRender s, ch.toNat < 256 := by
  intro ch hch
  simp only [jstrRender, List.mem_cons, List.mem_append, List.not_mem_nil,
    or_false] at hch
  rcases hch with h | h | h
  · subst h; decide
  · exact encStrBody_ascii s ch h
  · subst h; decide

theorem indentStr_ascii (ind : Nat) : ∀ ch ∈ indentStr ind, ch.toNat < 256 := by
  intro ch hch
  have h := List.eq_of_mem_replicate hch
  subst h
  decide

theorem jval_sizeOf_pos (v : JVal) : 0 < sizeOf v := by
  cases v <;> simp_arith

theorem render_ascii_all :
    ∀ N : Nat,
      (∀ (ind : Nat) (v : JVal), sizeOf v ≤ N →
        ∀ ch ∈ renderVal ind v, ch.toNat < 256) ∧
      (∀ (ind : Nat) (e : JVal) (tail : List JVal), sizeOf e + sizeOf tail ≤ N →
        ∀ ch ∈ renderArrItems ind e tail, ch.toNat < 256) ∧
      (∀ (ind : Nat) (f : Str × JVal) (tail : List (Str × JVal)),
        sizeOf f + sizeOf tail ≤ N →
        ∀ ch ∈ renderObjItems ind f tail, ch.toNat < 256) := by
  intro N
  induction N with
  | zero =>
    refine ⟨fun ind v hs => ?_, fun ind e tail hs => ?_, fun ind f tail hs => ?_⟩
    · exact absurd hs (by have := jval_sizeOf_pos v; omega)
    · exact absurd hs (by have := jval_sizeOf_pos e; omega)
    · exact absurd hs (by
        rcases f with ⟨k, v⟩
        have := jval_sizeOf_pos v
        have h2 : sizeOf (k, v) = 1 + sizeOf k + sizeOf v := by simp_arith
        omega)
  | succ N ihN =>
    obtain ⟨ihV, ihA, ihO⟩ := ihN
    refine ⟨fun ind v hs ch hch => ?_, fun ind e tail hs ch hch => ?_,
      fun ind f tail hs ch hch => ?_⟩
    · match v with
      | JVal.jstr s =>
        simp only [renderVal] at hch
        exact jstrRender_ascii s ch hch
      | JVal.jarr [] =>
        simp only [renderVal] at hch
        exact (show ∀ x ∈ str "[]", x.toNat < 256 by decide) ch hch
      | JVal.jarr (e :: tail) =>
        simp only [renderVal, List.mem_append, List.mem_cons,
          List.mem_singleton] at hch
        have hsz : sizeOf e + sizeOf tail ≤ N := by
          simp_arith at hs
          omega
        rcases hch with (h | h) | h | h | (h | h)
        · exact (show ∀ x ∈ str "[\n", x.toNat < 256 by decide) ch h
        · exact ihA (ind + 1) e tail hsz ch h
        · subst h; decide
        · exact indentStr_ascii ind ch h
        · subst h; decide
        · simp at h
      | JVal.jobj [] =>
        simp only [renderVal] at hch
        exact (show ∀ x ∈ str "\x7b\x7d", x.toNat < 256 by decide) ch hch
      | JVal.jobj (f :: tail) =>
        simp only [renderVal, List.mem_append, List.mem_cons,
          List.mem_singleton] at hch
        have hsz : sizeOf f + sizeOf tail ≤ N := by
          simp_arith at hs
          omega
        rcases hch with (h | h) | h | h | (h | h)
        · exact (show ∀ x ∈ str "\x7b\n", x.toNat < 256 by decide) ch h
        · exact ihO (ind + 1) f tail hsz ch h
        · subst h; decide
        · exact indentStr_ascii ind ch h
        · subst h; decide
        · simp at h
    · match tail with
      | [] =>
        simp only [renderArrItems, List.mem_append] at hch
        have hsz : sizeOf e ≤ N := by simp_arith at hs; omega
        rcases hch with h | h
        · exact indentStr_ascii ind ch h
        · exact ihV ind e hsz ch h
      | e2 :: tail2 =>
        simp only [renderArrItems, List.mem_append] at hch
        have hsz1 : sizeOf e ≤ N := by simp_arith at hs; omega
        have hsz2 : sizeOf e2 + sizeOf tail2 ≤ N := by simp_arith at hs; omega
        rcases hch with ((h | h) | h) | h
        · exact indentStr_ascii ind ch h
        · exact ihV ind e hsz1 ch h
        · exact (show ∀ x ∈ str ",\n", x.toNat < 256 by decide) ch h
        · exact ihA ind e2 tail2 hsz2 ch h
    · rcases f with ⟨k, v⟩
      match tail with
      | [] =>
        simp only [renderObjItems, List.mem_append] at hch
        have hsz : sizeOf v ≤ N := by simp_arith at hs; omega
        rcases hch with ((h | h) | h) | h
        · exact indentStr_ascii ind ch h
        · exact jstrRender_ascii k ch h
        · exact (show ∀ x ∈ str ": ", x.toNat < 256 by decide) ch h
        · exact ihV ind v hsz ch h
      | f2 :: tail2 =>
        simp only [renderObjItems, List.mem_append] at hch
        have hsz1 : sizeOf v ≤ N := by simp_arith at hs; omega
        have hsz2 : sizeOf f2 + sizeOf tail2 ≤ N := by simp_arith at hs; omega
        rcases hch with ((((h | h) | h) | h) | h) | h
        · exact indentStr_ascii ind ch h
        · exact jstrRender_ascii k ch h
        · exact (show ∀ x ∈ str ": ", x.toNat < 256 by decide) ch h
        · exact ihV ind v hsz1 ch h
        · exact (show ∀ x ∈ str ",\n", x.toNat < 256 by decide) ch h
        · exact ihO ind f2 tail2 hsz2 ch h

theorem renderVal_ascii (ind : Nat) (v : JVal) :
    ∀ ch ∈ renderVal ind v, ch.toNat < 256 :=
  (render_ascii_all (sizeOf v)).1 ind v le_rfl

theorem hexDigitVal_hexDigitChar : ∀ d, d < 16 → hexDigitVal (hexDigitChar d) = some d := by
  decide

theorem char_not_surrogate (c : Char) :
    c.toNat < 55296 ∨ (57343 < c.toNat ∧ c.toNat < 1114112) := by
  rcases c.valid with h | h
  · exact Or.inl (by exact_mod_cast h)
  · exact Or.inr ⟨by exact_mod_cast h.1, by exact_mod_cast h.2⟩

theorem hex4_toHex4 (v : Nat) (hv : v < 65536) :
    hex4 (hexDigitChar (v / 4096 % 16)) (hexDigitChar (v / 256 % 16))
      (hexDigitChar (v / 16 % 16)) (hexDigitChar (v % 16)) = some v := by
  rw [hex4, hexDigitVal_hexDigitChar _ (Nat.mod_lt _ (by omega)),
    hexDigitVal_hexDigitChar _ (Nat.mod_lt _ (by omega)),
    hexDigitVal_hexDigitChar _ (Nat.mod_lt _ (by omega)),
    hexDigitVal_hexDigitChar _ (Nat.mod_lt _ (by omega))]
  have : ((v / 4096 % 16 * 16 + v / 256 % 16) * 16 + v / 16 % 16) * 16
      + v % 16 = v := by omega
  simp [this]

theorem parseStrU_eq (c1 c2 c3 c4 : Char) (rest3 : Str) (v : Nat)
    (h : hex4 c1 c2 c3 c4 = some v) :
    parseStrU (c1 :: c2 :: c3 :: c4 :: rest3) =
      (if 55296 ≤ v ∧ v ≤ 56319 then parseStrPair v rest3
       else if 56320 ≤ v ∧ v ≤ 57343 then none
       else (fun pr => (Char.ofNat v :: pr.1, pr.2)) <$> parseStrBody rest3) := by
  rw [parseStrU, h]

theorem parseStrLow_eq (hc : Nat) (g1 g2 g3 g4 : Char) (rest4 : Str) (lo : Nat)
    (h : hex4 g1 g2 g3 g4 = some lo) :
    parseStrLow hc (g1 :: g2 :: g3 :: g4 :: rest4) =
      (if 56320 ≤ lo ∧ lo ≤ 57343 then
        (fun pr => (Char.ofNat (65536 + (hc - 55296) * 1024 + (lo - 56320))
          :: pr.1, pr.2)) <$> parseStrBody rest4
       else none) := by
  rw [parseStrLow, h]

theorem parseStrBody_u (v : Nat) (hv : v < 65536)
    (hns : ¬ (55296 ≤ v ∧ v ≤ 57343)) (t : Str) :
    parseStrBody ('\\' :: 'u' :: (toHex4 v ++ t))
      = (fun pr => (Char.ofNat v :: pr.1, pr.2)) <$> parseStrBody t := by
  rw [show toHex4 v ++ t
      = hexDigitChar (v / 4096 % 16) :: hexDigitChar (v / 256 % 16)
        :: hexDigitChar (v / 16 % 16) :: hexDigitChar (v % 16) :: t from rfl]
  rw [show parseStrBody ('\\' :: 'u' :: (hexDigitChar (v / 4096 % 16)
        :: hexDigitChar (v / 256 % 16) :: hexDigitChar (v / 16 % 16)
        :: hexDigitChar (v % 16) :: t))
      = parseStrU (hexDigitChar (v / 4096 % 16) :: hexDigitChar (v / 256 % 16)
        :: hexDigitChar (v / 16 % 16) :: hexDigitChar (v % 16) :: t) from rfl]
  rw [parseStrU_eq _ _ _ _ _ v (hex4_toHex4 v hv)]
  rw [if_neg (by omega), if_neg (by omega)]

theorem parseStrBody_u_pair (hi lo : Nat)
    (hhi : 55296 ≤ hi ∧ hi ≤ 56319) (hlo : 56320 ≤ lo ∧ lo ≤ 57343) (t : Str) :
    parseStrBody ('\\' :: 'u' :: (toHex4 hi ++ ('\\' :: 'u' :: (toHex4 lo ++ t))))
      = (fun pr => (Char.ofNat (65536 + (hi - 55296) * 1024 + (lo - 56320))
          :: pr.1, pr.2)) <$> parseStrBody t := by
  rw [show toHex4 hi ++ ('\\' :: 'u' :: (toHex4 lo ++ t))
      = hexDigitChar (hi / 4096 % 16) :: hexDigitChar (hi / 256 % 16)
        :: hexDigitChar (hi / 16 % 16) :: hexDigitChar (hi % 16)
        :: ('\\' :: 'u' :: (toHex4 lo ++ t)) from rfl]
  rw [show parseStrBody ('\\' :: 'u' :: (hexDigitChar (hi / 4096 % 16)
        :: hexDigitChar (hi / 256 % 16) :: hexDigitChar (hi / 16 % 16)
        :: hexDigitChar (hi % 16) :: ('\\' :: 'u' :: (toHex4 lo ++ t))))
      = parseStrU (hexDigitChar (hi / 4096 % 16) :: hexDigitChar (hi / 256 % 16)
        :: hexDigitChar (hi / 16 % 16) :: hexDigitChar (hi % 16)
        :: ('\\' :: 'u' :: (toHex4 lo ++ t))) from rfl]
  rw [parseStrU_eq _ _ _ _ _ hi (hex4_toHex4 hi (by omega))]
  rw [if_pos hhi]
  rw [show parseStrPair hi ('\\' :: 'u' :: (toHex4 lo ++ t))
      = parseStrLow hi (toHex4 lo ++ t) from by
    rw [parseStrPair, if_pos ⟨rfl, rfl⟩]]
  rw [show toHex4 lo ++ t
      = hexDigitChar (lo / 4096 % 16) :: hexDigitChar (lo / 256 % 16)
        :: hexDigitChar (lo / 16 % 16) :: hexDigitChar (lo % 16) :: t from rfl]
  rw [parseStrLow_eq hi _ _ _ _ _ lo (hex4_toHex4 lo (by omega))]
  rw [if_pos hlo]

theorem parseStrBody_esc2 (e d : Char) (t : Str)
    (h : parseStrEsc (e :: t) = (fun pr => (d :: pr.1, pr.2)) <$> parseStrBody t) :
    parseStrBody ('\\' :: e :: t) = (fun pr => (d :: pr.1, pr.2)) <$> parseStrBody t := by
  rw [show parseStrBody ('\\' :: e :: t) = parseStrEsc (e :: t) from rfl, h]

theorem parseStrBody_encStrBody (s : Str) :
    ∀ rest : Str, parseStrBody (encStrBody s ++ '"' :: rest) = some (s, rest) := by
  induction s with
  | nil =>
    intro rest
    rw [show encStrBody [] ++ '"' :: rest = '"' :: rest from rfl]
    rw [show parseStrBody ('"' :: rest) = some ([], rest) from rfl]
  | cons c cs ih =>
    intro rest
    have hexp : encStrBody (c :: cs) ++ '"' :: rest
        = escapeChar c ++ (encStrBody cs ++ '"' :: rest) := by
      simp [encStrBody]
    rw [hexp]
    by_cases h1 : c = '"'
    · subst h1
      rw [show escapeChar '"' = ['\\', '"'] from rfl, List.cons_append,
        List.cons_append, List.nil_append]
      rw [parseStrBody_esc2 '"' '"' _ rfl, ih]
      rfl
    by_cases h2 : c = '\\'
    · subst h2
      rw [show escapeChar '\\' = ['\\', '\\'] from rfl, List.cons_append,
        List.cons_append, List.nil_append]
      rw [parseStrBody_esc2 '\\' '\\' _ rfl, ih]
      rfl
    by_cases h3 : c = '\n'
    · subst h3
      rw [show escapeChar '\n' = ['\\', 'n'] from rfl, List.cons_append,
        List.cons_append, List.nil_append]
      rw [parseStrBody_esc2 'n' '\n' _ rfl, ih]
      rfl
    by_cases h4 : c = '\r'
    · subst h4
      rw [show escapeChar '\r' = ['\\', 'r'] from rfl, List.cons_append,
        List.cons_append, List.nil_append]
      rw [parseStrBody_esc2 'r' '\r' _ rfl, ih]
      rfl
    by_cases h5 : c = '\t'
    · subst h5
      rw [show escapeChar '\t' = ['\\', 't'] from rfl, List.cons_append,
        List.cons_append, List.nil_append]
      rw [parseStrBody_esc2 't' '\t' _ rfl, ih]
      rfl
    by_cases h6 : c = '\x08'
    · subst h6
      rw [show escapeChar '\x08' = ['\\', 'b'] from rfl, List.cons_append,
        List.cons_append, List.nil_append]
      rw [parseStrBody_esc2 'b' '\x08' _ rfl, ih]
      rfl
    by_cases h7 : c = '\x0c'
    · subst h7
      rw [show escapeChar '\x0c' = ['\\', 'f'] from rfl, List.cons_append,
        List.cons_append, List.nil_append]
      rw [parseStrBody_esc2 'f' '\x0c' _ rfl, ih]
      rfl
    by_cases h8 : c.toNat < 32
    · have hesc : escapeChar c = '\\' :: 'u' :: toHex4 c.toNat := by
        unfold escapeChar
        rw [if_neg h1, if_neg h2, if_neg h3, if_neg h4, if_neg h5, if_neg h6,
          if_neg h7, if_pos h8]
      rw [hesc]
      rw [show ('\\' :: 'u' :: toHex4 c.toNat) ++ (encStrBody cs ++ '"' :: rest)
          = '\\' :: 'u' :: (toHex4 c.toNat ++ (encStrBody cs ++ '"' :: rest)) from by
        simp]
      rw [parseStrBody_u c.toNat (by omega) (by omega), ih]
      simp [Char.ofNat_toNat]
    by_cases h9 : c.toNat ≤ 126
    · have hesc : escapeChar c = [c] := by
        unfold escapeChar
        rw [if_neg h1, if_neg h2, if_neg h3, if_neg h4, if_neg h5, if_neg h6,
          if_neg h7, if_neg h8, if_pos h9]
      rw [hesc, List.cons_append, List.nil_append]
      rw [parseStrBody, if_neg h1, if_neg h2, ih]
      rfl
    by_cases h10 : c.toNat ≤ 65535
    · have hesc : escapeChar c = '\\' :: 'u' :: toHex4 c.toNat := by
        unfold escapeChar
        rw [if_neg h1, if_neg h2, if_neg h3, if_neg h4, if_neg h5, if_neg h6,
          if_neg h7, if_neg h8, if_neg h9, if_pos h10]
      have hrange : c.toNat < 55296 ∨ 57343 < c.toNat := by
        rcases char_not_surrogate c with h | h
        · exact Or.inl h
        · exact Or.inr h.1
      rw [hesc]
      rw [show ('\\' :: 'u' :: toHex4 c.toNat) ++ (encStrBody cs ++ '"' :: rest)
          = '\\' :: 'u' :: (toHex4 c.toNat ++ (encStrBody cs ++ '"' :: rest)) from by
        simp]
      rw [parseStrBody_u c.toNat (by omega) (by omega), ih]
      simp [Char.ofNat_toNat]
    · have hesc : escapeChar c
          = ('\\' :: 'u' :: toHex4 (55296 + (c.toNat - 65536) / 1024))
            ++ ('\\' :: 'u' :: toHex4 (56320 + (c.toNat - 65536) % 1024)) := by
        unfold escapeChar
        rw [if_neg h1, if_neg h2, if_neg h3, if_neg h4, if_neg h5, if_neg h6,
          if_neg h7, if_neg h8, if_neg h9, if_neg h10]
      have hcv : c.toNat < 1114112 := by
        rcases char_not_surrogate c with h | h
        · omega
        · exact h.2
      have hdiv : (c.toNat - 65536) / 1024 <= 1023 := by omega
      have hmod : (c.toNat - 65536) % 1024 < 1024 := Nat.mod_lt _ (by omega)
      rw [hesc]
      rw [show (('\\' :: 'u' :: toHex4 (55296 + (c.toNat - 65536) / 1024))
            ++ ('\\' :: 'u' :: toHex4 (56320 + (c.toNat - 65536) % 1024)))
            ++ (encStrBody cs ++ '"' :: rest)
          = '\\' :: 'u' :: (toHex4 (55296 + (c.toNat - 65536) / 1024)
            ++ ('\\' :: 'u' :: (toHex4 (56320 + (c.toNat - 65536) % 1024)
              ++ (encStrBody cs ++ '"' :: rest)))) from by simp]
      rw [parseStrBody_u_pair (55296 + (c.toNat - 65536) / 1024)
        (56320 + (c.toNat - 65536) % 1024) (by omega) (by omega), ih]
      have harg : 65536 + (55296 + (c.toNat - 65536) / 1024 - 55296) * 1024
          + (56320 + (c.toNat - 65536) % 1024 - 56320) = c.toNat := by
        omega
      rw [harg]
      simp [Char.ofNat_toNat]

theorem skipJsonWs_cons_ws (c : Char) (s : Str) (hc : isJsonWs c = true) :
    skipJsonWs (c :: s) = skipJsonWs s := by
  simp [skipJsonWs, List.dropWhile, hc]

theorem skipJsonWs_cons_neg (c : Char) (s : Str) (hc : isJsonWs c = false) :
    skipJsonWs (c :: s) = c :: s := by
  simp [skipJsonWs, List.dropWhile, hc]

theorem skipJsonWs_append (w s : Str) (hw : ∀ c ∈ w, isJsonWs c = true) :
    skipJsonWs (w ++ s) = skipJsonWs s := by
  induction w with
  | nil => rfl
  | cons c cs ih =>
    rw [List.cons_append, skipJsonWs_cons_ws c _ (hw c (by simp)),
      ih (fun c h => hw c (by simp [h]))]

theorem indentStr_ws : ∀ n, ∀ c ∈ indentStr n, isJsonWs c = true := by
  intro n c h
  rw [indentStr] at h
  rw [List.eq_of_mem_replicate h]
  decide

theorem parseVal_jstr (fuel : Nat) (w s t : Str) (hw : ∀ c ∈ w, isJsonWs c = true) :
    parseVal (fuel + 1) (w ++ (jstrRender s ++ t)) = some (JVal.jstr s, t) := by
  rw [parseVal]
  rw [skipJsonWs_append w _ hw]
  rw [show jstrRender s ++ t = '"' :: (encStrBody s ++ '"' :: t) from by
    simp [jstrRender]]
  rw [skipJsonWs_cons_neg _ _ (by decide)]
  show (fun pr => (JVal.jstr pr.1, pr.2)) <$> parseStrBody (encStrBody s ++ '"' :: t)
    = some (JVal.jstr s, t)
  rw [parseStrBody_encStrBody]
  rfl

theorem parseArrItems_jstrs (ind : Nat) (p : Str) (ps : List Str) (w t : Str)
    (hw : ∀ c ∈ w, isJsonWs c = true) :
    ∀ (w0 : Str), (∀ c ∈ w0, isJsonWs c = true) → ∀ fuel, ps.length + 2 ≤ fuel →
    parseArrItems fuel (w0 ++ (renderArrItems ind (JVal.jstr p) (ps.map JVal.jstr)
      ++ ('\n' :: (w ++ (']' :: t)))))
      = some (JVal.jstr p :: ps.map JVal.jstr, t) := by
  induction ps generalizing p with
  | nil =>
    intro w0 hw0 fuel hfuel
    obtain ⟨f, rfl⟩ : ∃ f, fuel = f + 2 := ⟨fuel - 2, by omega⟩
    rw [show w0 ++ (renderArrItems ind (JVal.jstr p) (([] : List Str).map JVal.jstr)
          ++ ('\n' :: (w ++ (']' :: t))))
        = (w0 ++ indentStr ind) ++ (jstrRender p ++ ('\n' :: (w ++ (']' :: t)))) from by
      simp [renderArrItems, renderVal]]
    rw [show f + 2 = (f + 1) + 1 from rfl]
    rw [parseArrItems]
    rw [parseVal_jstr f _ _ _ (by
      intro c hc
      rcases List.mem_append.1 hc with h | h
      · exact hw0 c h
      · exact indentStr_ws ind c h)]
    dsimp only
    rw [skipJsonWs_cons_ws _ _ (by decide), skipJsonWs_append w _ hw,
      skipJsonWs_cons_neg _ _ (by decide)]
    rfl
  | cons p2 ps2 ih =>
    intro w0 hw0 fuel hfuel
    obtain ⟨f2, rfl⟩ : ∃ f2, fuel = f2 + 2 := ⟨fuel - 2, by omega⟩
    rw [show w0 ++ (renderArrItems ind (JVal.jstr p) ((p2 :: ps2).map JVal.jstr)
          ++ ('\n' :: (w ++ (']' :: t))))
        = (w0 ++ indentStr ind) ++ (jstrRender p
            ++ (',' :: '\n' :: (renderArrItems ind (JVal.jstr p2) (ps2.map JVal.jstr)
              ++ ('\n' :: (w ++ (']' :: t)))))) from by
      simp [renderArrItems, renderVal, str]]
    rw [show f2 + 2 = (f2 + 1) + 1 from rfl]
    rw [parseArrItems]
    rw [parseVal_jstr f2 _ _ _ (by
      intro c hc
      rcases List.mem_append.1 hc with h | h
      · exact hw0 c h
      · exact indentStr_ws ind c h)]
    dsimp only
    rw [skipJsonWs_cons_neg ',' _ (by decide)]
    show (fun pr => (JVal.jstr p :: pr.1, pr.2)) <$> parseArrItems (f2 + 1)
        ('\n' :: (renderArrItems ind (JVal.jstr p2) (ps2.map JVal.jstr)
          ++ ('\n' :: (w ++ (']' :: t)))))
      = some (JVal.jstr p :: (p2 :: ps2).map JVal.jstr, t)
    rw [show ('\n' :: (renderArrItems ind (JVal.jstr p2) (ps2.map JVal.jstr)
          ++ ('\n' :: (w ++ (']' :: t)))))
        = ['\n'] ++ (renderArrItems ind (JVal.jstr p2) (ps2.map JVal.jstr)
          ++ ('\n' :: (w ++ (']' :: t)))) from rfl]
    rw [ih p2 ['\n'] (by decide) (f2 + 1) (by
      simp at hfuel ⊢
      omega)]
    rfl

theorem parseObjItems_jstrs (ind : Nat) (k v : Str) (fs : List (Str × Str)) (w t : Str)
    (hw : ∀ c ∈ w, isJsonWs c = true) :
    ∀ (w0 : Str), (∀ c ∈ w0, isJsonWs c = true) → ∀ fuel, fs.length + 2 ≤ fuel →
    parseObjItems fuel (w0 ++ (renderObjItems ind (k, JVal.jstr v)
        (fs.map (fun f => (f.1, JVal.jstr f.2)))
      ++ ('\n' :: (w ++ ('\x7d' :: t)))))
      = some ((k, JVal.jstr v) :: fs.map (fun f => (f.1, JVal.jstr f.2)), t) := by
  induction fs generalizing k v with
  | nil =>
    intro w0 hw0 fuel hfuel
    obtain ⟨f, rfl⟩ : ∃ f, fuel = f + 2 := ⟨fuel - 2, by omega⟩
    rw [show w0 ++ (renderObjItems ind (k, JVal.jstr v)
          (([] : List (Str × Str)).map (fun f => (f.1, JVal.jstr f.2)))
          ++ ('\n' :: (w ++ ('\x7d' :: t))))
        = (w0 ++ indentStr ind) ++ ('"' :: (encStrBody k
            ++ ('"' :: (':' :: (' ' :: (jstrRender v
              ++ ('\n' :: (w ++ ('\x7d' :: t))))))))) from by
      simp [renderObjItems, renderVal, jstrRender, str]]
    rw [show f + 2 = (f + 1) + 1 from rfl]
    rw [parseObjItems]
    rw [skipJsonWs_append _ _ (by
      intro c hc
      rcases List.mem_append.1 hc with h | h
      · exact hw0 c h
      · exact indentStr_ws ind c h)]
    rw [skipJsonWs_cons_neg '"' _ (by decide)]
    dsimp only
    rw [show encStrBody k ++ ('"' :: (':' :: (' ' :: (jstrRender v
          ++ ('\n' :: (w ++ ('\x7d' :: t)))))))
        = encStrBody k ++ '"' :: (':' :: (' ' :: (jstrRender v
          ++ ('\n' :: (w ++ ('\x7d' :: t)))))) from rfl]
    rw [parseStrBody_encStrBody k]
    dsimp only
    rw [skipJsonWs_cons_neg ':' _ (by decide)]
    dsimp only
    rw [show (' ' :: (jstrRender v ++ ('\n' :: (w ++ ('\x7d' :: t)))))
        = [' '] ++ (jstrRender v ++ ('\n' :: (w ++ ('\x7d' :: t)))) from rfl]
    rw [parseVal_jstr f _ _ _ (by decide)]
    dsimp only
    rw [skipJsonWs_cons_ws _ _ (by decide), skipJsonWs_append w _ hw,
      skipJsonWs_cons_neg _ _ (by decide)]
    rfl
  | cons f2 fs2 ih =>
    intro w0 hw0 fuel hfuel
    obtain ⟨f, rfl⟩ : ∃ f, fuel = f + 2 := ⟨fuel - 2, by omega⟩
    rw [show w0 ++ (renderObjItems ind (k, JVal.jstr v)
          ((f2 :: fs2).map (fun f => (f.1, JVal.jstr f.2)))
          ++ ('\n' :: (w ++ ('\x7d' :: t))))
        = (w0 ++ indentStr ind) ++ ('"' :: (encStrBody k
            ++ ('"' :: (':' :: (' ' :: (jstrRender v
              ++ (',' :: '\n' :: (renderObjItems ind (f2.1, JVal.jstr f2.2)
                  (fs2.map (fun f => (f.1, JVal.jstr f.2)))
                ++ ('\n' :: (w ++ ('\x7d' :: t))))))))))) from by
      simp [renderObjItems, renderVal, jstrRender, str]]
    rw [show f + 2 = (f + 1) + 1 from rfl]
    rw [parseObjItems]
    rw [skipJsonWs_append _ _ (by
      intro c hc
      rcases List.mem_append.1 hc with h | h
      · exact hw0 c h
      · exact indentStr_ws ind c h)]
    rw [skipJsonWs_cons_neg '"' _ (by decide)]
    dsimp only
    rw [show encStrBody k ++ ('"' :: (':' :: (' ' :: (jstrRender v
          ++ (',' :: '\n' :: (renderObjItems ind (f2.1, JVal.jstr f2.2)
              (fs2.map (fun f => (f.1, JVal.jstr f.2)))
            ++ ('\n' :: (w ++ ('\x7d' :: t)))))))))
        = encStrBody k ++ '"' :: (':' :: (' ' :: (jstrRender v
          ++ (',' :: '\n' :: (renderObjItems ind (f2.1, JVal.jstr f2.2)
              (fs2.map (fun f => (f.1, JVal.jstr f.2)))
            ++ ('\n' :: (w ++ ('\x7d' :: t)))))))) from rfl]
    rw [parseStrBody_encStrBody k]
    dsimp only
    rw [skipJsonWs_cons_neg ':' _ (by decide)]
    dsimp only
    rw [show (' ' :: (jstrRender v ++ (',' :: '\n'
          :: (renderObjItems ind (f2.1, JVal.jstr f2.2)
              (fs2.map (fun f => (f.1, JVal.jstr f.2)))
            ++ ('\n' :: (w ++ ('\x7d' :: t)))))))
        = [' '] ++ (jstrRender v ++ (',' :: '\n'
          :: (renderObjItems ind (f2.1, JVal.jstr f2.2)
              (fs2.map (fun f => (f.1, JVal.jstr f.2)))
            ++ ('\n' :: (w ++ ('\x7d' :: t)))))) from rfl]
    rw [parseVal_jstr f _ _ _ (by decide)]
    dsimp only
    rw [skipJsonWs_cons_neg ',' _ (by decide)]
    show (fun pr => ((k, JVal.jstr v) :: pr.1, pr.2)) <$> parseObjItems (f + 1)
        ('\n' :: (renderObjItems ind (f2.1, JVal.jstr f2.2)
            (fs2.map (fun f => (f.1, JVal.jstr f.2)))
          ++ ('\n' :: (w ++ ('\x7d' :: t)))))
      = some ((k, JVal.jstr v) :: (f2 :: fs2).map (fun f => (f.1, JVal.jstr f.2)), t)
    rw [show ('\n' :: (renderObjItems ind (f2.1, JVal.jstr f2.2)
          (fs2.map (fun f => (f.1, JVal.jstr f.2)))
        ++ ('\n' :: (w ++ ('\x7d' :: t)))))
        = ['\n'] ++ (renderObjItems ind (f2.1, JVal.jstr f2.2)
          (fs2.map (fun f => (f.1, JVal.jstr f.2)))
        ++ ('\n' :: (w ++ ('\x7d' :: t)))) from rfl]
    rw [ih f2.1 f2.2 ['\n'] (by decide) (f + 1) (by
      simp at hfuel ⊢
      omega)]
    rfl

theorem parseObjItems_cons (fuel : Nat) (s body rest4 rest5 : Str) (kk : Str) (vv : JVal)
    (flds : List (Str × JVal)) (t : Str)
    (hs : skipJsonWs s = '"' :: (encStrBody kk ++ '"' :: (':' :: body)))
    (hval : parseVal fuel body = some (vv, rest4))
    (hc : skipJsonWs rest4 = ',' :: rest5)
    (hrec : parseObjItems fuel rest5 = some (flds, t)) :
    parseObjItems (fuel + 1) s = some ((kk, vv) :: flds, t) := by
  rw [parseObjItems, hs]
  dsimp only
  rw [parseStrBody_encStrBody kk]
  dsimp only
  rw [skipJsonWs_cons_neg ':' _ (by decide)]
  dsimp only
  rw [hval]
  dsimp only
  rw [hc]
  show (fun pr => ((kk, vv) :: pr.1, pr.2)) <$> parseObjItems fuel rest5
    = some ((kk, vv) :: flds, t)
  rw [hrec]
  rfl

theorem parseObjItems_last (fuel : Nat) (s body rest4 rest5 : Str) (kk : Str) (vv : JVal)
    (hs : skipJsonWs s = '"' :: (encStrBody kk ++ '"' :: (':' :: body)))
    (hval : parseVal fuel body = some (vv, rest4))
    (hb : skipJsonWs rest4 = '\x7d' :: rest5) :
    parseObjItems (fuel + 1) s = some ([(kk, vv)], rest5) := by
  rw [parseObjItems, hs]
  dsimp only
  rw [parseStrBody_encStrBody kk]
  dsimp only
  rw [skipJsonWs_cons_neg ':' _ (by decide)]
  dsimp only
  rw [hval]
  dsimp only
  rw [hb]
  rfl

theorem renderObjItems_head (ind : Nat) (k : Str) (v : JVal) (L : List (Str × JVal)) :
    ∃ X : Str, renderObjItems ind (k, v) L = indentStr ind ++ ('"' :: X) := by
  cases L with
  | nil =>
    exact ⟨encStrBody k ++ '"' :: (str ": " ++ renderVal ind v),
      by simp [renderObjItems, jstrRender]⟩
  | cons f tail =>
    exact ⟨encStrBody k ++ '"' :: (str ": " ++ (renderVal ind v
        ++ (str ",\n" ++ renderObjItems ind f tail))),
      by simp [renderObjItems, jstrRender]⟩

theorem renderArrItems_jstr_head (ind : Nat) (p : Str) (L : List JVal) :
    ∃ X : Str, renderArrItems ind (JVal.jstr p) L = indentStr ind ++ ('"' :: X) := by
  cases L with
  | nil =>
    exact ⟨encStrBody p ++ ['"'],
      by simp [renderArrItems, renderVal, jstrRender]⟩
  | cons e tail =>
    exact ⟨encStrBody p ++ '"' :: (str ",\n" ++ renderArrItems ind e tail),
      by simp [renderArrItems, renderVal, jstrRender]⟩

theorem parseVal_jobj_jstrs (ind : Nat) (k v : Str) (fs : List (Str × Str))
    (w t : Str) (hw : ∀ c ∈ w, isJsonWs c = true) (fuel : Nat)
    (hfuel : fs.length + 2 ≤ fuel) :
    parseVal (fuel + 1)
      (w ++ (renderVal ind (JVal.jobj ((k, JVal.jstr v)
        :: fs.map (fun f => (f.1, JVal.jstr f.2)))) ++ t))
      = some (JVal.jobj ((k, JVal.jstr v) :: fs.map (fun f => (f.1, JVal.jstr f.2))), t) := by
  rw [show w ++ (renderVal ind (JVal.jobj ((k, JVal.jstr v)
        :: fs.map (fun f => (f.1, JVal.jstr f.2)))) ++ t)
      = w ++ ('\x7b' :: (['\n'] ++ (renderObjItems (ind + 1) (k, JVal.jstr v)
          (fs.map (fun f => (f.1, JVal.jstr f.2)))
        ++ ('\n' :: (indentStr ind ++ ('\x7d' :: t)))))) from by
    simp [renderVal, str]]
  rw [parseVal]
  rw [skipJsonWs_append w _ hw, skipJsonWs_cons_neg '\x7b' _ (by decide)]
  dsimp only
  obtain ⟨X, hX⟩ := renderObjItems_head (ind + 1) k (JVal.jstr v)
    (fs.map (fun f => (f.1, JVal.jstr f.2)))
  rw [show skipJsonWs (['\n'] ++ (renderObjItems (ind + 1) (k, JVal.jstr v)
        (fs.map (fun f => (f.1, JVal.jstr f.2)))
      ++ ('\n' :: (indentStr ind ++ ('\x7d' :: t)))))
      = '"' :: (X ++ ('\n' :: (indentStr ind ++ ('\x7d' :: t)))) from by
    rw [hX]
    rw [show (indentStr (ind + 1) ++ ('"' :: X))
          ++ ('\n' :: (indentStr ind ++ ('\x7d' :: t)))
        = indentStr (ind + 1) ++ ('"' :: (X ++ ('\n' :: (indentStr ind
          ++ ('\x7d' :: t))))) from by simp]
    rw [show (['\n'] : Str) ++ (indentStr (ind + 1) ++ ('"' :: (X
          ++ ('\n' :: (indentStr ind ++ ('\x7d' :: t))))))
        = (['\n'] ++ indentStr (ind + 1)) ++ ('"' :: (X
          ++ ('\n' :: (indentStr ind ++ ('\x7d' :: t))))) from by simp]
    rw [skipJsonWs_append _ _ (by
      intro c hc
      rcases List.mem_append.1 hc with h | h
      · simp at h
        rw [h]; decide
      · exact indentStr_ws _ c h)]
    rw [skipJsonWs_cons_neg '"' _ (by decide)]]
  dsimp only
  show (fun pr => (JVal.jobj pr.1, pr.2)) <$> parseObjItems fuel
      (['\n'] ++ (renderObjItems (ind + 1) (k, JVal.jstr v)
        (fs.map (fun f => (f.1, JVal.jstr f.2)))
      ++ ('\n' :: (indentStr ind ++ ('\x7d' :: t)))))
    = some (JVal.jobj ((k, JVal.jstr v) :: fs.map (fun f => (f.1, JVal.jstr f.2))), t)
  rw [parseObjItems_jstrs (ind + 1) k v fs (indentStr ind) t (indentStr_ws ind)
    ['\n'] (by decide) fuel hfuel]
  rfl

theorem parseVal_jarr_nil (ind : Nat) (w t : Str)
    (hw : ∀ c ∈ w, isJsonWs c = true) (fuel : Nat) :
    parseVal (fuel + 1) (w ++ (renderVal ind (JVal.jarr []) ++ t))
      = some (JVal.jarr [], t) := by
  rw [show w ++ (renderVal ind (JVal.jarr []) ++ t)
      = w ++ ('[' :: (']' :: t)) from by simp [renderVal, str]]
  rw [parseVal]
  rw [skipJsonWs_append w _ hw, skipJsonWs_cons_neg '[' _ (by decide)]
  dsimp only
  rw [skipJsonWs_cons_neg ']' _ (by decide)]
  rfl

theorem parseVal_jarr_jstrs (ind : Nat) (p : Str) (ps : List Str)
    (w t : Str) (hw : ∀ c ∈ w, isJsonWs c = true) (fuel : Nat)
    (hfuel : ps.length + 2 ≤ fuel) :
    parseVal (fuel + 1)
      (w ++ (renderVal ind (JVal.jarr ((p :: ps).map JVal.jstr)) ++ t))
      = some (JVal.jarr ((p :: ps).map JVal.jstr), t) := by
  rw [show w ++ (renderVal ind (JVal.jarr ((p :: ps).map JVal.jstr)) ++ t)
      = w ++ ('[' :: (['\n'] ++ (renderArrItems (ind + 1) (JVal.jstr p)
          (ps.map JVal.jstr)
        ++ ('\n' :: (indentStr ind ++ (']' :: t)))))) from by
    simp [renderVal, str]]
  rw [parseVal]
  rw [skipJsonWs_append w _ hw, skipJsonWs_cons_neg '[' _ (by decide)]
  dsimp only
  obtain ⟨X, hX⟩ := renderArrItems_jstr_head (ind + 1) p (ps.map JVal.jstr)
  rw [show skipJsonWs (['\n'] ++ (renderArrItems (ind + 1) (JVal.jstr p)
        (ps.map JVal.jstr)
      ++ ('\n' :: (indentStr ind ++ (']' :: t)))))
      = '"' :: (X ++ ('\n' :: (indentStr ind ++ (']' :: t)))) from by
    rw [hX]
    rw [show (indentStr (ind + 1) ++ ('"' :: X))
          ++ ('\n' :: (indentStr ind ++ (']' :: t)))
        = indentStr (ind + 1) ++ ('"' :: (X ++ ('\n' :: (indentStr ind
          ++ (']' :: t))))) from by simp]
    rw [show (['\n'] : Str) ++ (indentStr (ind + 1) ++ ('"' :: (X
          ++ ('\n' :: (indentStr ind ++ (']' :: t))))))
        = (['\n'] ++ indentStr (ind + 1)) ++ ('"' :: (X
          ++ ('\n' :: (indentStr ind ++ (']' :: t))))) from by simp]
    rw [skipJsonWs_append _ _ (by
      intro c hc
      rcases List.mem_append.1 hc with h | h
      · simp at h
        rw [h]; decide
      · exact indentStr_ws _ c h)]
    rw [skipJsonWs_cons_neg '"' _ (by decide)]]
  dsimp only
  show (fun pr => (JVal.jarr pr.1, pr.2)) <$> parseArrItems fuel
      (['\n'] ++ (renderArrItems (ind + 1) (JVal.jstr p) (ps.map JVal.jstr)
      ++ ('\n' :: (indentStr ind ++ (']' :: t)))))
    = some (JVal.jarr ((p :: ps).map JVal.jstr), t)
  rw [parseArrItems_jstrs (ind + 1) p ps (indentStr ind) t (indentStr_ws ind)
    ['\n'] (by decide) fuel hfuel]
  rfl

theorem parseVal_obj4 (k1 k2 k3 k4 : Str) (v1 v2 v3 v4 : JVal) (J : Nat)
    (h1 : ∀ Z : Str, parseVal (J + 3) (' ' :: (renderVal 1 v1 ++ Z)) = some (v1, Z))
    (h2 : ∀ Z : Str, parseVal (J + 2) (' ' :: (renderVal 1 v2 ++ Z)) = some (v2, Z))
    (h3 : ∀ Z : Str, parseVal (J + 1) (' ' :: (renderVal 1 v3 ++ Z)) = some (v3, Z))
    (h4 : ∀ Z : Str, parseVal J (' ' :: (renderVal 1 v4 ++ Z)) = some (v4, Z)) :
    parseVal (J + 5) (renderVal 0 (JVal.jobj [(k1, v1), (k2, v2), (k3, v3), (k4, v4)]))
      = some (JVal.jobj [(k1, v1), (k2, v2), (k3, v3), (k4, v4)], []) := by
  rw [show renderVal 0 (JVal.jobj [(k1, v1), (k2, v2), (k3, v3), (k4, v4)])
      = ('\x7b' :: ('\n' :: (' ' :: (' ' :: ('"' :: (encStrBody k1 ++ '"' :: (':' :: (' ' :: (renderVal 1 v1 ++ (',' :: ('\n' :: (' ' :: (' ' :: ('"' :: (encStrBody k2 ++ '"' :: (':' :: (' ' :: (renderVal 1 v2 ++ (',' :: ('\n' :: (' ' :: (' ' :: ('"' :: (encStrBody k3 ++ '"' :: (':' :: (' ' :: (renderVal 1 v3 ++ (',' :: ('\n' :: (' ' :: (' ' :: ('"' :: (encStrBody k4 ++ '"' :: (':' :: (' ' :: (renderVal 1 v4 ++ ('\n' :: ['\x7d']))))))))))))))))))))))))))))))))))))) from by
    simp [renderVal, renderObjItems, jstrRender, indentStr, str]]
  rw [show J + 5 = (J + 4) + 1 from rfl]
  rw [parseVal]
  show (fun pr => (JVal.jobj pr.1, pr.2)) <$> parseObjItems (J + 4)
      ('\n' :: (' ' :: (' ' :: ('"' :: (encStrBody k1 ++ '"' :: (':' :: (' ' :: (renderVal 1 v1 ++ (',' :: ('\n' :: (' ' :: (' ' :: ('"' :: (encStrBody k2 ++ '"' :: (':' :: (' ' :: (renderVal 1 v2 ++ (',' :: ('\n' :: (' ' :: (' ' :: ('"' :: (encStrBody k3 ++ '"' :: (':' :: (' ' :: (renderVal 1 v3 ++ (',' :: ('\n' :: (' ' :: (' ' :: ('"' :: (encStrBody k4 ++ '"' :: (':' :: (' ' :: (renderVal 1 v4 ++ ('\n' :: ['\x7d']))))))))))))))))))))))))))))))))))))
    = some (JVal.jobj [(k1, v1), (k2, v2), (k3, v3), (k4, v4)], [])
  have step4 : parseObjItems (J + 1) ('\n' :: (' ' :: (' ' :: ('"' :: (encStrBody k4 ++ '"' :: (':' :: (' ' :: (renderVal 1 v4 ++ ('\n' :: ['\x7d'])))))))))
      = some ([(k4, v4)], []) :=
    parseObjItems_last J _ _ _ _ k4 v4 rfl (h4 ('\n' :: ['\x7d'])) rfl
  have step3 : parseObjItems (J + 2) ('\n' :: (' ' :: (' ' :: ('"' :: (encStrBody k3 ++ '"' :: (':' :: (' ' :: (renderVal 1 v3 ++ (',' :: ('\n' :: (' ' :: (' ' :: ('"' :: (encStrBody k4 ++ '"' :: (':' :: (' ' :: (renderVal 1 v4 ++ ('\n' :: ['\x7d']))))))))))))))))))
      = some ([(k3, v3), (k4, v4)], []) :=
    parseObjItems_cons (J + 1) _ _ _ _ k3 v3 _ _ rfl
      (h3 (',' :: ('\n' :: (' ' :: (' ' :: ('"' :: (encStrBody k4 ++ '"' :: (':' :: (' ' :: (renderVal 1 v4 ++ ('\n' :: ['\x7d']))))))))))) rfl step4
  have step2 : parseObjItems (J + 3) ('\n' :: (' ' :: (' ' :: ('"' :: (encStrBody k2 ++ '"' :: (':' :: (' ' :: (renderVal 1 v2 ++ (',' :: ('\n' :: (' ' :: (' ' :: ('"' :: (encStrBody k3 ++ '"' :: (':' :: (' ' :: (renderVal 1 v3 ++ (',' :: ('\n' :: (' ' :: (' ' :: ('"' :: (encStrBody k4 ++ '"' :: (':' :: (' ' :: (renderVal 1 v4 ++ ('\n' :: ['\x7d'])))))))))))))))))))))))))))
      = some ([(k2, v2), (k3, v3), (k4, v4)], []) :=
    parseObjItems_cons (J + 2) _ _ _ _ k2 v2 _ _ rfl
      (h2 (',' :: ('\n' :: (' ' :: (' ' :: ('"' :: (encStrBody k3 ++ '"' :: (':' :: (' ' :: (renderVal 1 v3 ++ (',' :: ('\n' :: (' ' :: (' ' :: ('"' :: (encStrBody k4 ++ '"' :: (':' :: (' ' :: (renderVal 1 v4 ++ ('\n' :: ['\x7d'])))))))))))))))))))) rfl step3
  have step1 : parseObjItems (J + 4) ('\n' :: (' ' :: (' ' :: ('"' :: (encStrBody k1 ++ '"' :: (':' :: (' ' :: (renderVal 1 v1 ++ (',' :: ('\n' :: (' ' :: (' ' :: ('"' :: (encStrBody k2 ++ '"' :: (':' :: (' ' :: (renderVal 1 v2 ++ (',' :: ('\n' :: (' ' :: (' ' :: ('"' :: (encStrBody k3 ++ '"' :: (':' :: (' ' :: (renderVal 1 v3 ++ (',' :: ('\n' :: (' ' :: (' ' :: ('"' :: (encStrBody k4 ++ '"' :: (':' :: (' ' :: (renderVal 1 v4 ++ ('\n' :: ['\x7d']))))))))))))))))))))))))))))))))))))
      = some ([(k1, v1), (k2, v2), (k3, v3), (k4, v4)], []) :=
    parseObjItems_cons (J + 3) _ _ _ _ k1 v1 _ _ rfl
      (h1 (',' :: ('\n' :: (' ' :: (' ' :: ('"' :: (encStrBody k2 ++ '"' :: (':' :: (' ' :: (renderVal 1 v2 ++ (',' :: ('\n' :: (' ' :: (' ' :: ('"' :: (encStrBody k3 ++ '"' :: (':' :: (' ' :: (renderVal 1 v3 ++ (',' :: ('\n' :: (' ' :: (' ' :: ('"' :: (encStrBody k4 ++ '"' :: (':' :: (' ' :: (renderVal 1 v4 ++ ('\n' :: ['\x7d']))))))))))))))))))))))))))))) rfl step2
  rw [step1]
  rfl

theorem renderArrItems_jstrs_len (ind : Nat) (p : Str) (ps : List Str) :
    ps.length + 1 ≤ (renderArrItems ind (JVal.jstr p) (ps.map JVal.jstr)).length := by
  induction ps generalizing p with
  | nil =>
    rw [show renderArrItems ind (JVal.jstr p) (([] : List Str).map JVal.jstr)
        = indentStr ind ++ jstrRender p from by simp [renderArrItems, renderVal]]
    simp [jstrRender]
    omega
  | cons p2 ps2 ih =>
    rw [show renderArrItems ind (JVal.jstr p) ((p2 :: ps2).map JVal.jstr)
        = indentStr ind ++ (jstrRender p ++ (str ",\n"
          ++ renderArrItems ind (JVal.jstr p2) (ps2.map JVal.jstr))) from by
      simp [renderArrItems, renderVal]]
    have h := ih p2
    simp [str] at h ⊢
    omega

theorem jarr_jstrs_len (parts : List Str) :
    parts.length + 2 ≤ (renderVal 1 (JVal.jarr (parts.map JVal.jstr))).length := by
  cases parts with
  | nil =>
    rw [show renderVal 1 (JVal.jarr (([] : List Str).map JVal.jstr))
        = str "[]" from by simp [renderVal]]
    simp [str]
  | cons p ps =>
    rw [show renderVal 1 (JVal.jarr ((p :: ps).map JVal.jstr))
        = str "[\n" ++ (renderArrItems 2 (JVal.jstr p) (ps.map JVal.jstr)
          ++ ('\n' :: (indentStr 1 ++ [']']))) from by simp [renderVal, str]]
    have h := renderArrItems_jstrs_len 2 p ps
    simp [str]
    omega

theorem renderVal_obj4_shape (k1 k2 k3 k4 : Str) (v1 v2 v3 v4 : JVal) :
    renderVal 0 (JVal.jobj [(k1, v1), (k2, v2), (k3, v3), (k4, v4)])
      = ('\x7b' :: ('\n' :: (' ' :: (' ' :: ('"' :: (encStrBody k1 ++ '"' :: (':' :: (' ' :: (renderVal 1 v1 ++ (',' :: ('\n' :: (' ' :: (' ' :: ('"' :: (encStrBody k2 ++ '"' :: (':' :: (' ' :: (renderVal 1 v2 ++ (',' :: ('\n' :: (' ' :: (' ' :: ('"' :: (encStrBody k3 ++ '"' :: (':' :: (' ' :: (renderVal 1 v3 ++ (',' :: ('\n' :: (' ' :: (' ' :: ('"' :: (encStrBody k4 ++ '"' :: (':' :: (' ' :: (renderVal 1 v4 ++ ('\n' :: ['\x7d']))))))))))))))))))))))))))))))))))))) := by
  simp [renderVal, renderObjItems, jstrRender, indentStr, str]

theorem dumps_export_length (filename pages gdate wc sc avg : Str)
    (parts : List Str) (combined : Str) :
    parts.length + 7
      ≤ (dumps_export filename pages gdate wc sc avg parts combined).length := by
  have harr := jarr_jstrs_len parts
  rw [show dumps_export filename pages gdate wc sc avg parts combined
      = renderVal 0 (JVal.jobj
          [(str "document", JVal.jobj
              [(str "filename", JVal.jstr filename),
               (str "pages", JVal.jstr pages),
               (str "generated_date", JVal.jstr gdate)]),
           (str "analysis", JVal.jobj
              [(str "word_count", JVal.jstr wc),
               (str "sentence_count", JVal.jstr sc),
               (str "avg_words_per_sentence", JVal.jstr avg)]),
           (str "summary_parts", JVal.jarr (parts.map JVal.jstr)),
           (str "combined_summary", JVal.jstr combined)]) from rfl]
  rw [renderVal_obj4_shape]
  simp [List.length_cons, List.length_append]
  omega

theorem parseVal_dumps (filename pages gdate wc sc avg : Str) (parts : List Str)
    (combined : Str) (J : Nat) (hJ : 3 ≤ J) (hJp : parts.length + 1 ≤ J) :
    parseVal (J + 5) (dumps_export filename pages gdate wc sc avg parts combined)
      = some (expectedExport filename pages gdate wc sc avg parts combined, []) := by
  have h1 : ∀ Z : Str, parseVal (J + 3) (' ' :: (renderVal 1 (JVal.jobj
      [(str "filename", JVal.jstr filename), (str "pages", JVal.jstr pages),
       (str "generated_date", JVal.jstr gdate)]) ++ Z))
      = some (JVal.jobj [(str "filename", JVal.jstr filename),
          (str "pages", JVal.jstr pages),
          (str "generated_date", JVal.jstr gdate)], Z) := by
    intro Z
    exact parseVal_jobj_jstrs 1 (str "filename") filename
      [(str "pages", pages), (str "generated_date", gdate)] [' '] Z (by decide)
      (J + 2) (by simp; omega)
  have h2 : ∀ Z : Str, parseVal (J + 2) (' ' :: (renderVal 1 (JVal.jobj
      [(str "word_count", JVal.jstr wc), (str "sentence_count", JVal.jstr sc),
       (str "avg_words_per_sentence", JVal.jstr avg)]) ++ Z))
      = some (JVal.jobj [(str "word_count", JVal.jstr wc),
          (str "sentence_count", JVal.jstr sc),
          (str "avg_words_per_sentence", JVal.jstr avg)], Z) := by
    intro Z
    exact parseVal_jobj_jstrs 1 (str "word_count") wc
      [(str "sentence_count", sc), (str "avg_words_per_sentence", avg)] [' '] Z
      (by decide) (J + 1) (by simp; omega)
  have h3 : ∀ Z : Str, parseVal (J + 1) (' ' :: (renderVal 1
      (JVal.jarr (parts.map JVal.jstr)) ++ Z))
      = some (JVal.jarr (parts.map JVal.jstr), Z) := by
    intro Z
    cases parts with
    | nil => exact parseVal_jarr_nil 1 [' '] Z (by decide) J
    | cons p ps =>
      refine parseVal_jarr_jstrs 1 p ps [' '] Z (by decide) J (by
        simp at hJp
        omega)
  have h4 : ∀ Z : Str, parseVal J (' ' :: (renderVal 1 (JVal.jstr combined) ++ Z))
      = some (JVal.jstr combined, Z) := by
    intro Z
    rw [show renderVal 1 (JVal.jstr combined) = jstrRender combined from by
      simp [renderVal]]
    obtain ⟨J2, rfl⟩ : ∃ J2, J = J2 + 1 := ⟨J - 1, by omega⟩
    exact parseVal_jstr J2 [' '] combined Z (by decide)
  exact parseVal_obj4 (str "document") (str "analysis") (str "summary_parts")
    (str "combined_summary") _ _ _ _ J h1 h2 h3 h4

theorem parseJson_dumps (filename pages gdate wc sc avg : Str) (parts : List Str)
    (combined : Str) :
    parseJson (dumps_export filename pages gdate wc sc avg parts combined)
      = some (expectedExport filename pages gdate wc sc avg parts combined) := by
  have hlen := dumps_export_length filename pages gdate wc sc avg parts combined
  simp only [parseJson]
  rw [show (dumps_export filename pages gdate wc sc avg parts combined).length + 1
      = ((dumps_export filename pages gdate wc sc avg parts combined).length - 4)
        + 5 from by omega]
  rw [parseVal_dumps filename pages gdate wc sc avg parts combined _
    (by omega) (by omega)]
  rfl

/-- C9: exporting with format "json" produces a base64 payload such that
decoding it and parsing the result as JSON yields back the export object;
in particular the `summary_parts` and `combined_summary` fields are
recovered exactly as supplied (decode-then-parse after export is the
identity on those two fields). -/
theorem c9_export_json_roundtrip (filename pages gdate wc sc avg : Str)
    (parts : List Str) (combined : Str) :
    parseJson (bytesToStr (b64decode (export_summary_json filename pages gdate
        wc sc avg parts combined)))
      = some (expectedExport filename pages gdate wc sc avg parts combined)
    ∧ jsonField (str "summary_parts")
        (expectedExport filename pages gdate wc sc avg parts combined)
      = some (JVal.jarr (parts.map JVal.jstr))
    ∧ jsonField (str "combined_summary")
        (expectedExport filename pages gdate wc sc avg parts combined)
      = some (JVal.jstr combined) := by
  have hdec : bytesToStr (b64decode (export_summary_json filename pages gdate
      wc sc avg parts combined))
      = dumps_export filename pages gdate wc sc avg parts combined := by
    simp only [export_summary_json]
    rw [b64_roundtrip _ (by
      intro b hb
      simp only [strToBytes, List.mem_map] at hb
      obtain ⟨c, hc, rfl⟩ := hb
      exact renderVal_ascii 0
        (expectedExport filename pages gdate wc sc avg parts combined) c hc)]
    exact bytesToStr_strToBytes _
  rw [hdec]
  exact ⟨parseJson_dumps filename pages gdate wc sc avg parts combined, rfl, rfl⟩

end DocSummarizer
